import Mathlib

/-!
# githubstatus-task-controller: the reconciler

A shallow embedding of `pkg/reconciler/reconciler.go` (`Validate`, `stringToBool`,
`retryCustomRun`, `Reconciler.ReconcileKind`) and of the client constructor of
`pkg/git/github_client.go`, followed by theorems about them.

Conventions of the embedding.
* A Go pointer that may be nil is an `Option`.
* A Go `error` is an `Option String` holding the text of `err.Error()`; `none` is `nil`.
* `ReconcileKind` mutates `r.Status` and returns an event; here it returns the new
  status, the event and the list of Status Reporter calls it made.  A nil-pointer
  dereference (a Go panic) is the result `none`.
* The outbound call `GithubClient.SetStatus` is an input of the reconciliation: a
  function from the client and the four arguments to the returned error.
* Logging has no effect on the task and is left out.
-/

namespace GithubStatus

/-! ## Data model -/

/-- An instant (`metav1.Time`), as a number of ticks. -/
abbrev Time := Int

/-- A span of time (`time.Duration`). -/
abbrev Duration := Int

/-- The `Value` of a parameter; only `StringVal` is read by the reconciler. -/
structure ParamValue where
  StringVal : String
deriving DecidableEq, Repr

/-- One entry of `Spec.Params`. -/
structure Param where
  Name : String
  Value : ParamValue
deriving DecidableEq, Repr

/-- The custom reference `Spec.CustomRef` of a run. -/
structure CustomRef where
  APIVersion : String
  Kind : String
  Name : String
deriving DecidableEq, Repr

/-- The fields of `CustomRunSpec` that the reconciler reads. -/
structure CustomRunSpec where
  CustomRef : Option CustomRef
  Params : List Param
  Status : String
  StatusMessage : String
  Timeout : Option Duration
  Retries : Int
deriving DecidableEq, Repr

/-- The three values of a condition status (`corev1.ConditionStatus`). -/
inductive ConditionStatus where
  | ConditionTrue
  | ConditionFalse
  | ConditionUnknown
deriving DecidableEq, Repr

/-- The `Succeeded` condition of a run (`apis.Condition`): status, reason, message and the
instant of its last change.  The type and the severity of a condition are left out: a run
carries the one condition `Succeeded`, with the severity that the framework writes. -/
structure Condition where
  Status : ConditionStatus
  Reason : String
  Message : String
  LastTransitionTime : Time
deriving DecidableEq, Repr

/-- The status of a run (`CustomRunStatus`): the `Succeeded` condition (absent until it
is first set), the two timestamps and the retry history, itself a list of statuses. -/
inductive CustomRunStatus where
  | mk (Condition : Option Condition) (StartTime : Option Time)
      (CompletionTime : Option Time) (RetriesStatus : List CustomRunStatus)

namespace CustomRunStatus

/-- The field `Status.Conditions`, restricted to the `Succeeded` condition. -/
def Condition : CustomRunStatus → Option GithubStatus.Condition
  | mk c _ _ _ => c

/-- The field `Status.StartTime`. -/
def StartTime : CustomRunStatus → Option Time
  | mk _ s _ _ => s

/-- The field `Status.CompletionTime`. -/
def CompletionTime : CustomRunStatus → Option Time
  | mk _ _ t _ => t

/-- The field `Status.RetriesStatus`. -/
def RetriesStatus : CustomRunStatus → List CustomRunStatus
  | mk _ _ _ rs => rs

/-- Assignment to the `Succeeded` condition. -/
@[simp] def setCondition (st : CustomRunStatus) (c : Option GithubStatus.Condition) : CustomRunStatus :=
  mk c st.StartTime st.CompletionTime st.RetriesStatus

/-- Assignment `Status.StartTime = t`. -/
@[simp] def setStartTime (st : CustomRunStatus) (t : Option Time) : CustomRunStatus :=
  mk st.Condition t st.CompletionTime st.RetriesStatus

/-- Assignment `Status.CompletionTime = t`. -/
@[simp] def setCompletionTime (st : CustomRunStatus) (t : Option Time) : CustomRunStatus :=
  mk st.Condition st.StartTime t st.RetriesStatus

/-- Assignment `Status.RetriesStatus = rs`. -/
@[simp] def setRetriesStatus (st : CustomRunStatus) (rs : List CustomRunStatus) : CustomRunStatus :=
  mk st.Condition st.StartTime st.CompletionTime rs

end CustomRunStatus

/-- A run: its spec (owned by the pipeline engine) and its status (owned by the
reconciler). -/
structure CustomRun where
  Spec : CustomRunSpec
  Status : CustomRunStatus

/-- The injected clock (`clock.PassiveClock`): the current instant and the time elapsed
since a given instant.  One reconciliation reads one clock value; successive
reconciliations may be given different clocks. -/
structure PassiveClock where
  Now : Time
  Since : Time → Duration

/-- The reconciler.  `Clock` is the one field of the source's struct.  `WallNow` is not a
field of the source: it is the reading of the process clock (`time.Now()`) that the
framework's condition manager takes when it changes a condition, carried here so that
`ReconcileKind` keeps the arguments it has in the source.  One reconciliation reads one
value of it. -/
structure Reconciler where
  Clock : PassiveClock
  WallNow : Time

/-- The client of `pkg/git/github_client.go`. -/
structure GithubClient where
  BaseUrl : String
  RepoOwner : String
  RepoName : String
  Revision : String
  AccessToken : String
  InsecureSkipVerify : Bool
deriving DecidableEq, Repr

/-- The constructor `NewGithubClient`. -/
def NewGithubClient (baseUrl repoOwner repoName revision accessToken : String)
    (insecureSkipVerify : Bool) : GithubClient :=
  { BaseUrl := baseUrl, RepoOwner := repoOwner, RepoName := repoName, Revision := revision,
    AccessToken := accessToken, InsecureSkipVerify := insecureSkipVerify }

/-- The outbound call `GithubClient.SetStatus(ghState, ghDescription, ghContext,
ghTargetUrl)`, as seen by the reconciler: the error it returns (`none` for success). -/
abbrev StatusReporter := GithubClient → String → String → String → String → Option String

/-- A record of one call of `SetStatus`: the client and the four arguments. -/
structure SetStatusCall where
  Client : GithubClient
  State : String
  Description : String
  Context : String
  TargetUrl : String
deriving DecidableEq, Repr

/-- What `ReconcileKind` returns to the delivery system: `nil`, or the request built by
`controller.NewRequeueImmediately()`. -/
inductive Event where
  | nil
  | requeueImmediately
deriving DecidableEq, Repr

/-- The effect of one reconciliation: the status left on the run, the returned event and
the Status Reporter calls made, in order. -/
structure Reconciled where
  Status : CustomRunStatus
  Event : Event
  Calls : List SetStatusCall

/-! ## Constants -/

/-- The constant `WaitTaskCancelledMsg`. -/
def WaitTaskCancelledMsg : String := "Wait Task cancelled."

/-- The constant `WaitTaskFailedOnRunTimeoutMsg`. -/
def WaitTaskFailedOnRunTimeoutMsg : String := "Wait Task failed as it times out."

/-- The nine names tested in the loop of the parameter-count check of `ReconcileKind`,
in the order of `Validate`. -/
def requiredNames : List String :=
  ["baseUrl", "owner", "repository", "revision", "state", "description", "context",
   "targetUrl", "insecureSkipVerify"]

/-! ## Framework helpers

The run type and its helpers belong to the pipeline framework, whose code is not part
of the repository.  They are modelled on the data model of the specification (§3, §4.3
and §6): a status is a phase with a reason and a message, two nullable timestamps and a
retry history; the move into a terminal state sets CompletionTime (§3).  The condition
manager reads the process clock, not the injected clock of the reconciler. -/

/-- The states of the scanner of a format: copying text, or inside a directive after
its percent sign (reading flags, the width, the precision). -/
inductive FormatState where
  | text
  | flags
  | width
  | precision
deriving DecidableEq, Repr

/-- The flag characters of a directive. -/
def isFlag (c : Char) : Bool :=
  c = '#' || c = '0' || c = '+' || c = '-' || c = ' '

/-- Modelled from the spec: the output of `fmt.Sprintf` for one verb, with the operands
left; the Go library is not under src/ and is modelled by its documented behaviour.
`%%` prints a percent sign and takes no operand; a verb with no operand left prints
`%!v(MISSING)` for the verb `v`; `%s` and `%v` print the next operand (operands are
passed already rendered as text); another verb prints the bad-verb form of a string
operand. -/
def printVerb (v : Char) (args : List String) : List Char × List String :=
  if v = '%' then (['%'], args)
  else match args with
    | [] => ("%!".toList ++ v :: "(MISSING)".toList, [])
    | a :: args =>
      if v = 's' ∨ v = 'v' then (a.toList, args)
      else ("%!".toList ++ v :: "(string=".toList ++ a.toList ++ [')'], args)

/-- Modelled from the spec: the scanner of `fmt.Sprintf` (Go library, not under src/, by
its documented behaviour).  Text is copied; after a percent sign the flags, a width and
a precision given in digits are skipped up to the verb, which is printed by `printVerb`;
a format that ends inside a directive prints `%!(NOVERB)`.  Not modelled, and absent
from every format of the source: widths and precisions given by `*`, argument indexes,
the effect of flags and widths on a printed operand, and operands left over. -/
def sprintfChars : FormatState → List Char → List String → List Char
  | .text, [], _ => []
  | .flags, [], _ => "%!(NOVERB)".toList
  | .width, [], _ => "%!(NOVERB)".toList
  | .precision, [], _ => "%!(NOVERB)".toList
  | .text, c :: cs, args =>
    if c = '%' then sprintfChars .flags cs args else c :: sprintfChars .text cs args
  | .flags, c :: cs, args =>
    if isFlag c then sprintfChars .flags cs args
    else if c.isDigit then sprintfChars .width cs args
    else if c = '.' then sprintfChars .precision cs args
    else (printVerb c args).1 ++ sprintfChars .text cs (printVerb c args).2
  | .width, c :: cs, args =>
    if c.isDigit then sprintfChars .width cs args
    else if c = '.' then sprintfChars .precision cs args
    else (printVerb c args).1 ++ sprintfChars .text cs (printVerb c args).2
  | .precision, c :: cs, args =>
    if c.isDigit then sprintfChars .precision cs args
    else (printVerb c args).1 ++ sprintfChars .text cs (printVerb c args).2

/-- Modelled from the spec: `fmt.Sprintf(format, args...)` on strings (Go library, not
under src/), see `sprintfChars`. -/
def Sprintf (format : String) (args : List String) : String :=
  String.mk (sprintfChars .text format.toList args)

/-- Modelled from the spec: the `%v` rendering of a slice of strings by `fmt` (Go library,
not under src/): the elements separated by blanks, in square brackets. -/
def formatStrings (xs : List String) : String :=
  "[" ++ " ".intercalate xs ++ "]"

/-- Modelled from the spec: the instant that the condition manager of the framework (not
under src/) stores as `LastTransitionTime` when a condition is set: a condition that
differs from the present one in status, reason or message is stamped with the process
clock `now`; one that only repeats the present condition keeps the instant it has. -/
def transitionTime (old : Option Condition) (status : ConditionStatus)
    (reason message : String) (now : Time) : Time :=
  match old with
  | none => now
  | some k =>
    if k.Status = status ∧ k.Reason = reason ∧ k.Message = message then k.LastTransitionTime
    else now

/-- Modelled from the spec: the condition manager's `SetCondition`, not under src/: the
condition replaces the present one, with the instant given by `transitionTime` (the
instant carried by the argument is not used). -/
def SetCondition (now : Time) (st : CustomRunStatus) (c : Condition) : CustomRunStatus :=
  st.setCondition (some ⟨c.Status, c.Reason, c.Message,
    transitionTime st.Condition c.Status c.Reason c.Message now⟩)

/-- Modelled from the spec: `CustomRunStatus.MarkCustomRunFailed(reason, messageFormat,
args...)`, not under src/: the transition to Failed with the reason and the formatted
message (§4.3), after which CompletionTime is assigned the instant of the condition's
last change (§3: CompletionTime is set at the move into a terminal state).  This
assignment comes after, and so replaces, the one that `ReconcileKind` makes before the
call. -/
def MarkCustomRunFailed (now : Time) (st : CustomRunStatus) (reason messageFormat : String)
    (args : List String) : CustomRunStatus :=
  let st := SetCondition now st ⟨.ConditionFalse, reason, Sprintf messageFormat args, 0⟩
  st.setCompletionTime (st.Condition.map (fun k => k.LastTransitionTime))

/-- Modelled from the spec: `CustomRunStatus.MarkCustomRunSucceeded(reason,
messageFormat, args...)`, not under src/: the transition to Succeeded with the reason
and the formatted message (§4.3 step 9), after which CompletionTime is assigned the
instant of the condition's last change (§3). -/
def MarkCustomRunSucceeded (now : Time) (st : CustomRunStatus)
    (reason messageFormat : String) (args : List String) : CustomRunStatus :=
  let st := SetCondition now st ⟨.ConditionTrue, reason, Sprintf messageFormat args, 0⟩
  st.setCompletionTime (st.Condition.map (fun k => k.LastTransitionTime))

/-- Modelled from the spec: `CustomRunStatus.MarkCustomRunRunning(reason, messageFormat,
args...)`, not under src/: the transition to Running with the reason and the formatted
message (§4.3 step 5); the timestamps of the status are left as they are. -/
def MarkCustomRunRunning (now : Time) (st : CustomRunStatus) (reason messageFormat : String)
    (args : List String) : CustomRunStatus :=
  SetCondition now st ⟨.ConditionUnknown, reason, Sprintf messageFormat args, 0⟩

/-- Modelled from the spec: `CustomRunStatus.InitializeConditions`, not under src/: a
StartTime that is not set is set to the process clock; a status without a condition gets
the condition Unknown, an existing one is kept; and when StartTime was just set the
reason of the condition becomes "Started". -/
def InitializeConditions (now : Time) (st : CustomRunStatus) : CustomRunStatus :=
  let started := st.StartTime.isNone
  let st := if started then st.setStartTime (some now) else st
  let st :=
    match st.Condition with
    | none => SetCondition now st ⟨.ConditionUnknown, "", "", 0⟩
    | some _ => st
  if started then
    match st.Condition with
    | none => st
    | some k => SetCondition now st ⟨k.Status, "Started", k.Message, 0⟩
  else st

/-- Modelled from the spec: `CustomRunSpec.GetParam(name)`, not under src/: the lookup
of a name in the parameter mapping (§3), the first entry of that name, nil if none. -/
def CustomRunSpec.GetParam (s : CustomRunSpec) (name : String) : Option Param :=
  s.Params.find? (fun p => p.Name = name)

/-- Modelled from the spec: the framework's default timeout, not under src/ (§3: "if
unset, a system default applies"); sixty minutes, in nanoseconds. -/
def DefaultTimeout : Duration := 60 * 60 * 1000000000

/-- Modelled from the spec: `CustomRun.GetTimeout`, not under src/: the task's timeout,
or the default when it is unset (§3). -/
def CustomRun.GetTimeout (r : CustomRun) : Duration :=
  match r.Spec.Timeout with
  | none => DefaultTimeout
  | some d => d

/-- Modelled from the spec: `CustomRun.HasStarted`, not under src/: the task has started
when its StartTime is set (§3, §4.3 step 5). -/
def CustomRun.HasStarted (r : CustomRun) : Bool :=
  r.Status.StartTime.isSome

/-- Modelled from the spec: `CustomRun.IsDone`, not under src/: the phase is terminal,
that is the condition is neither absent nor Unknown (§4.3 step 6). -/
def CustomRunStatus.IsDone (st : CustomRunStatus) : Bool :=
  match st.Condition with
  | none => false
  | some c => c.Status != .ConditionUnknown

/-- The method `r.IsDone()` of the run. -/
def CustomRun.IsDone (r : CustomRun) : Bool :=
  r.Status.IsDone

/-- Modelled from the spec: the value of `Spec.Status` by which the pipeline engine marks
a run cancelled, a framework constant not under src/. -/
def CustomRunSpecStatusCancelled : String := "RunCancelled"

/-- Modelled from the spec: `CustomRun.IsCancelled`, not under src/: the task has been
externally marked cancelled (§4.3 step 7). -/
def CustomRun.IsCancelled (r : CustomRun) : Bool :=
  r.Spec.Status = CustomRunSpecStatusCancelled

/-! ## The functions of `reconciler.go` -/

/-- The test `p == nil || p.Value.StringVal == ""` that `Validate` applies to the result
of `r.Spec.GetParam(name)`. -/
def paramMissing (r : CustomRun) (name : String) : Bool :=
  match r.Spec.GetParam name with
  | none => true
  | some p => p.Value.StringVal = ""

/-- The function `Validate`: the nine tests in source order, the first failing one
returns its error. -/
def Validate (r : CustomRun) : Option String :=
  if paramMissing r "baseUrl" then some "The baseUrl param was not passed"
  else if paramMissing r "owner" then some "The owner param was not passed"
  else if paramMissing r "repository" then some "The repository param was not passed"
  else if paramMissing r "revision" then some "The revision param was not passed"
  else if paramMissing r "state" then some "The state param was not passed"
  else if paramMissing r "description" then some "The description param was not passed"
  else if paramMissing r "context" then some "The context param was not passed"
  else if paramMissing r "targetUrl" then some "The targetUrl param was not passed"
  else if paramMissing r "insecureSkipVerify" then
    some "The insecureSkipVerify param was not passed"
  else none

/-- Modelled from the spec: `strings.ToLower` (Go library, not under src/): every letter
is mapped to its lower case.  Only the letters A to Z are mapped here; no other
character has a lower case among the letters of "true" and "false", which is all the
comparison in `stringToBool` looks at. -/
def ToLower (s : String) : String :=
  String.mk (s.toList.map Char.toLower)

/-- The function `stringToBool`: a switch on the lower-cased string. -/
def stringToBool (s : String) : Bool :=
  if ToLower s = "true" then true
  else if ToLower s = "false" then false
  else false

/-- The function `retryCustomRun`: a copy of the status, with its own history cleared and
the given condition set, is appended to the history of the run; then StartTime is
cleared and the run is marked Running with reason "Retrying".  The argument `now` is the
process clock read by the condition manager. -/
def retryCustomRun (now : Time) (r : CustomRun) (c : Condition) : CustomRun :=
  let newStatus := r.Status
  let newStatus := newStatus.setRetriesStatus []
  let newStatus := SetCondition now newStatus c
  let st := r.Status.setRetriesStatus (r.Status.RetriesStatus ++ [newStatus])
  let st := st.setStartTime none
  { r with Status := MarkCustomRunRunning now st "Retrying" "" [] }

/-- The loop of the parameter-count check: the names of the parameters that are none of
the nine required names, in parameter order. -/
def unexpectedNames (ps : List Param) : List String :=
  (ps.filter (fun p => !(p.Name = "revision" || p.Name = "baseUrl" || p.Name = "owner"
    || p.Name = "repository" || p.Name = "state" || p.Name = "description"
    || p.Name = "context" || p.Name = "targetUrl" || p.Name = "insecureSkipVerify"))).map
    (fun p => p.Name)

/-- The read `r.Spec.GetParam(name).Value.StringVal`; a nil result of the lookup is a nil
dereference. -/
def paramString (r : CustomRun) (name : String) : Option String :=
  (r.Spec.GetParam name).map (fun p => p.Value.StringVal)

/-- The block of `ReconcileKind` guarded by `!r.HasStarted()`: the conditions are
initialised, StartTime is set to the clock's current instant and the run is marked
Running. -/
def startIfNotStarted (c : Reconciler) (r : CustomRun) : CustomRun :=
  if !r.HasStarted then
    let st := InitializeConditions c.WallNow r.Status
    let st := st.setStartTime (some c.Clock.Now)
    { r with Status :=
        MarkCustomRunRunning c.WallNow st "Running" "Waiting for duration to elapse" [] }
  else r

/-- The part of `ReconcileKind` after the nine parameter reads (from `timeout :=
r.GetTimeout()` to the end). -/
def reconcileRun (c : Reconciler) (SetStatus : StatusReporter) (r : CustomRun)
    (baseUrl owner repository revision state description context targetUrl
      insecureSkipVerify : String) : Option Reconciled :=
  let timeout := r.GetTimeout
  let r := startIfNotStarted c r
  if r.IsDone then some ⟨r.Status, .nil, []⟩
  else if r.IsCancelled then
    let st := r.Status.setCompletionTime (some c.Clock.Now)
    let msg := r.Spec.StatusMessage
    let msg := if msg = "" then WaitTaskCancelledMsg else msg
    some ⟨MarkCustomRunFailed c.WallNow st "Cancelled" msg [], .nil, []⟩
  else
    match r.Status.StartTime with
    | none => none
    | some startTime =>
      let elapsed := c.Clock.Since startTime
      if r.Status.StartTime ≠ none ∧ elapsed > timeout then
        if r.Spec.Retries > (r.Status.RetriesStatus.length : Int) then
          let r := retryCustomRun c.WallNow r ⟨.ConditionFalse, "TimedOut", "", 0⟩
          some ⟨r.Status, .requeueImmediately, []⟩
        else
          let st := r.Status.setCompletionTime (some c.Clock.Now)
          some ⟨MarkCustomRunFailed c.WallNow st "TimedOut" WaitTaskFailedOnRunTimeoutMsg [],
            .nil, []⟩
      else
        let statusClient := NewGithubClient baseUrl owner repository revision "blabla"
          (stringToBool insecureSkipVerify)
        let call : SetStatusCall := ⟨statusClient, state, description, context, targetUrl⟩
        match SetStatus statusClient state description context targetUrl with
        | some err =>
          let st := r.Status.setCompletionTime (some c.Clock.Now)
          some ⟨MarkCustomRunFailed c.WallNow st "Failed" err [], .nil, [call]⟩
        | none =>
          some ⟨MarkCustomRunSucceeded c.WallNow r.Status "GithubStatusSet"
            "The github status was set" [], .nil, [call]⟩

/-- The method `Reconciler.ReconcileKind`. -/
def ReconcileKind (c : Reconciler) (SetStatus : StatusReporter) (r : CustomRun) :
    Option Reconciled :=
  match r.Spec.CustomRef with
  | none => some ⟨r.Status, .nil, []⟩
  | some ref =>
    if ref.APIVersion ≠ "pipeline.jquad.rocks/v1alpha1" ∨ ref.Kind ≠ "GithubStatus" then
      some ⟨r.Status, .nil, []⟩
    else if ref.Name ≠ "" then
      some ⟨MarkCustomRunFailed c.WallNow r.Status "UnexpectedName" "Found unexpected ref name: %s"
        [ref.Name], .nil, []⟩
    else
      match Validate r with
      | some errParams =>
        some ⟨MarkCustomRunFailed c.WallNow r.Status "MissingParameter" errParams [], .nil, []⟩
      | none =>
        if r.Spec.Params.length ≠ 9 then
          let found := unexpectedNames r.Spec.Params
          some ⟨MarkCustomRunFailed c.WallNow r.Status "UnexpectedParams" "Found unexpected params: %v"
            [formatStrings found], .nil, []⟩
        else
          (paramString r "baseUrl").bind fun baseUrl =>
          (paramString r "owner").bind fun owner =>
          (paramString r "repository").bind fun repository =>
          (paramString r "revision").bind fun revision =>
          (paramString r "state").bind fun state =>
          (paramString r "description").bind fun description =>
          (paramString r "context").bind fun context =>
          (paramString r "targetUrl").bind fun targetUrl =>
          (paramString r "insecureSkipVerify").bind fun insecureSkipVerify =>
          reconcileRun c SetStatus r baseUrl owner repository revision state description
            context targetUrl insecureSkipVerify

/-! ## Sequences of reconciliations -/

/-- One delivery of the task to the reconciler: the clock and the reporter in effect,
and the spec of the task at that moment (the spec is owned by the pipeline engine, which
may for instance mark the task cancelled between two deliveries). -/
structure Delivery where
  Reconciler : Reconciler
  SetStatus : StatusReporter
  Spec : CustomRunSpec

/-- A list of deliveries, in order: each reconciliation starts from the status left by
the one before it.  The result lists the effect of every reconciliation. -/
def reconcileAll : List Delivery → CustomRunStatus → Option (List Reconciled)
  | [], _ => some []
  | d :: ds, st =>
    match ReconcileKind d.Reconciler d.SetStatus ⟨d.Spec, st⟩ with
    | none => none
    | some o => (reconcileAll ds o.Status).map (fun os => o :: os)

/-! ## Vocabulary of the claims -/

/-- The task belongs to this controller: its custom reference is present and carries the
expected apiVersion and kind. -/
def Relevant (r : CustomRun) : Prop :=
  match r.Spec.CustomRef with
  | none => False
  | some ref => ref.APIVersion = "pipeline.jquad.rocks/v1alpha1" ∧ ref.Kind = "GithubStatus"

/-- The ref name of the task is empty. -/
def RefNameEmpty (r : CustomRun) : Prop :=
  match r.Spec.CustomRef with
  | none => True
  | some ref => ref.Name = ""

/-- The parameters are exactly the required set: the names are the nine required names,
each once and no other, and every value is non-empty. -/
def ExactParams (ps : List Param) : Prop :=
  (ps.map (fun p => p.Name)).Perm requiredNames ∧ ∀ p ∈ ps, p.Value.StringVal ≠ ""

/-- A well-formed task: an empty ref name and exactly the required parameters. -/
def WellFormed (r : CustomRun) : Prop :=
  RefNameEmpty r ∧ ExactParams r.Spec.Params

/-- The text read by `r.Spec.GetParam(name).Value.StringVal` when the parameter is there
(the empty string stands in when it is not). -/
def paramValue (r : CustomRun) (name : String) : String :=
  (paramString r name).getD ""

/-- The Status Reporter call that `ReconcileKind` makes for the task: the client built
from baseUrl, owner, repository, revision and `stringToBool(insecureSkipVerify)`, with
the arguments state, description, context and targetUrl. -/
def reporterCall (r : CustomRun) : SetStatusCall :=
  ⟨NewGithubClient (paramValue r "baseUrl") (paramValue r "owner") (paramValue r "repository")
    (paramValue r "revision") "blabla" (stringToBool (paramValue r "insecureSkipVerify")),
    paramValue r "state", paramValue r "description", paramValue r "context",
    paramValue r "targetUrl"⟩

/-- The answer of a reporter to a recorded call. -/
def StatusReporter.answer (SetStatus : StatusReporter) (call : SetStatusCall) : Option String :=
  SetStatus call.Client call.State call.Description call.Context call.TargetUrl

/-- The code of `ReconcileKind` after the parameter checks, applied to the values of the
nine parameters. -/
def reconcileChecked (c : Reconciler) (SetStatus : StatusReporter) (r : CustomRun) :
    Option Reconciled :=
  reconcileRun c SetStatus r (paramValue r "baseUrl") (paramValue r "owner")
    (paramValue r "repository") (paramValue r "revision") (paramValue r "state")
    (paramValue r "description") (paramValue r "context") (paramValue r "targetUrl")
    (paramValue r "insecureSkipVerify")

/-- The task passes the three configuration checks of `ReconcileKind`. -/
def PassesChecks (r : CustomRun) : Prop :=
  RefNameEmpty r ∧ Validate r = none ∧ r.Spec.Params.length = 9

/-! ## Sample tasks, clocks and reporters -/

/-- A reference that this controller accepts, with an empty name. -/
def sampleRef : CustomRef :=
  ⟨"pipeline.jquad.rocks/v1alpha1", "GithubStatus", ""⟩

/-- The nine required parameters, each with a non-empty value. -/
def sampleParams : List Param :=
  [⟨"baseUrl", ⟨"https://github.com"⟩⟩, ⟨"owner", ⟨"jquad-group"⟩⟩,
   ⟨"repository", ⟨"demo"⟩⟩, ⟨"revision", ⟨"main"⟩⟩, ⟨"state", ⟨"success"⟩⟩,
   ⟨"description", ⟨"build passed"⟩⟩, ⟨"context", ⟨"ci"⟩⟩,
   ⟨"targetUrl", ⟨"https://ci.example.org"⟩⟩, ⟨"insecureSkipVerify", ⟨"false"⟩⟩]

/-- A well-formed spec: not cancelled, timeout 10, retry limit 2. -/
def sampleSpec : CustomRunSpec :=
  ⟨some sampleRef, sampleParams, "", "", some 10, 2⟩

/-- The status of a task that was never reconciled. -/
def freshStatus : CustomRunStatus :=
  .mk none none none []

/-- A clock read at the instant `now` that measures elapsed time by subtraction; it is
the process clock too. -/
def wallClock (now : Time) : Reconciler :=
  ⟨⟨now, fun t => now - t⟩, now⟩

/-- A test clock read at the instant `now` that reports the same elapsed time whatever
the start, in a process whose own clock reads `now + 1000`. -/
def fixedElapsedClock (now : Time) (elapsed : Duration) : Reconciler :=
  ⟨⟨now, fun _ => elapsed⟩, now + 1000⟩

/-- A reporter whose call succeeds. -/
def okReporter : StatusReporter :=
  fun _ _ _ _ _ => none

/-- A reporter whose call fails with the given error text. -/
def failingReporter (e : String) : StatusReporter :=
  fun _ _ _ _ _ => some e

/-- A task whose phase is Succeeded, completed at the instant 3, and whose reference
carries the name "x". -/
def succeededNamedRun : CustomRun :=
  ⟨{ sampleSpec with CustomRef := some { sampleRef with Name := "x" } },
   .mk (some ⟨.ConditionTrue, "GithubStatusSet", "The github status was set", 3⟩) (some 1)
     (some 3) []⟩

/-- The sample task after its success: started and completed at the instant 5, phase
Succeeded. -/
def succeededRun : CustomRun :=
  ⟨sampleSpec,
   .mk (some ⟨.ConditionTrue, "GithubStatusSet", "The github status was set", 5⟩) (some 5)
     (some 5) []⟩

/-- A well-formed task whose phase is Failed and whose StartTime is not set. -/
def failedUnstartedRun : CustomRun :=
  ⟨sampleSpec, .mk (some ⟨.ConditionFalse, "Failed", "boom", 1⟩) none (some 1) []⟩

/-- The effect of a timeout-driven retry that leaves `k` entries in the history: the run
is requeued immediately, its phase is Running (reason "Retrying"), StartTime is cleared,
and the Status Reporter is not called. -/
def IsRetryOutcome (o : Reconciled) (k : Nat) : Prop :=
  o.Event = .requeueImmediately ∧
  (∃ t, o.Status.Condition = some ⟨.ConditionUnknown, "Retrying", "", t⟩) ∧
  o.Status.StartTime = none ∧
  o.Status.RetriesStatus.length = k ∧
  o.Calls = []

/-- The effect of the final timeout with `k` entries in the history, when the process
clock reads `now`: no requeue, phase Failed with reason "TimedOut" since `now`,
CompletionTime set to `now`, and the Status Reporter is not called. -/
def IsTimedOutOutcome (o : Reconciled) (now : Time) (k : Nat) : Prop :=
  o.Event = .nil ∧
  o.Status.Condition =
    some ⟨.ConditionFalse, "TimedOut", WaitTaskFailedOnRunTimeoutMsg, now⟩ ∧
  o.Status.CompletionTime = some now ∧
  o.Status.RetriesStatus.length = k ∧
  o.Calls = []

/-- A well-formed task that has started at the instant 1, is Running and has no retry
history. -/
def runningRun : CustomRun :=
  ⟨sampleSpec, .mk (some ⟨.ConditionUnknown, "Running", "Waiting for duration to elapse", 1⟩)
    (some 1) none []⟩

/-- A delivery of the sample task under a test clock that reports 100 ticks elapsed. -/
def lateDelivery (now : Time) : Delivery :=
  ⟨fixedElapsedClock now 100, okReporter, sampleSpec⟩

/-- The sample task before its first reconciliation. -/
def freshRun : CustomRun :=
  ⟨sampleSpec, freshStatus⟩

/-- A task that was never reconciled and whose parameters lack `targetUrl`. -/
def incompleteRun : CustomRun :=
  ⟨{ sampleSpec with Params := sampleParams.filter (fun p => p.Name ≠ "targetUrl") },
   freshStatus⟩

/-- The running sample task, marked cancelled by the pipeline engine with a message. -/
def cancelledRun : CustomRun :=
  ⟨{ sampleSpec with Status := "RunCancelled", StatusMessage := "stopped by user" },
   runningRun.Status⟩

/-- The required name `n` is present with a non-empty string value: the lookup of `n` in
the parameters finds a parameter, and its value is not the empty string. -/
def ParamPresent (r : CustomRun) (n : String) : Prop :=
  ∃ p, r.Spec.GetParam n = some p ∧ p.Value.StringVal ≠ ""

/-- The sample task with one more parameter, named "extra". -/
def extraParamRun : CustomRun :=
  ⟨{ sampleSpec with Params := sampleParams ++ [⟨"extra", ⟨"1"⟩⟩] }, freshStatus⟩

/-- A running, cancelled task with the right parameters whose reference names another
kind of custom task. -/
def foreignRun : CustomRun :=
  ⟨{ sampleSpec with
      CustomRef := some ⟨"pipeline.jquad.rocks/v1alpha1", "Wait", "named"⟩,
      Status := "RunCancelled" },
   runningRun.Status⟩

/-- A task that was never reconciled, with the right parameters, whose reference carries
the name "my-status". -/
def namedRun : CustomRun :=
  ⟨{ sampleSpec with CustomRef := some { sampleRef with Name := "my-status" } }, freshStatus⟩

/-- The sample task after one timeout-driven retry: one entry in the history, StartTime
cleared, reason "Retrying". -/
def onceRetriedRun : CustomRun :=
  ⟨sampleSpec, .mk (some ⟨.ConditionUnknown, "Retrying", "", 12⟩) none none
    [.mk (some ⟨.ConditionFalse, "TimedOut", "", 12⟩) (some 1) none []]⟩

/-- The running sample task, marked cancelled with a message that ends in a percent
sign. -/
def percentCancelledRun : CustomRun :=
  ⟨{ sampleSpec with Status := "RunCancelled", StatusMessage := "cancelled at 100%" },
   runningRun.Status⟩

/-- The snapshot that a timeout-driven retry appends to the history: the status after the
start block, with its own history cleared and the condition Failed with reason
"TimedOut", stamped with the process clock. -/
def retrySnapshot (c : Reconciler) (r : CustomRun) : CustomRunStatus :=
  .mk (some ⟨.ConditionFalse, "TimedOut", "", c.WallNow⟩)
    (some (r.Status.StartTime.getD c.Clock.Now)) r.Status.CompletionTime []

/-- The string equals "true" when letter case is ignored: four characters, each the
lower-case or the upper-case letter of "true" at its place. -/
def IsTrueIgnoringCase (s : String) : Prop :=
  ∃ c1 c2 c3 c4, s = String.mk [c1, c2, c3, c4] ∧ (c1 = 't' ∨ c1 = 'T') ∧
    (c2 = 'r' ∨ c2 = 'R') ∧ (c3 = 'u' ∨ c3 = 'U') ∧ (c4 = 'e' ∨ c4 = 'E')

/-- The sample task with the parameter `owner` given twice. -/
def duplicateParamRun : CustomRun :=
  ⟨{ sampleSpec with Params := sampleParams ++ [⟨"owner", ⟨"someone-else"⟩⟩] }, freshStatus⟩

/-! ## Helper lemmas -/

@[simp] theorem CustomRunStatus.condition_mk (c : Option GithubStatus.Condition) (s t : Option Time)
    (rs : List CustomRunStatus) : (CustomRunStatus.mk c s t rs).Condition = c := rfl

@[simp] theorem CustomRunStatus.startTime_mk (c : Option GithubStatus.Condition) (s t : Option Time)
    (rs : List CustomRunStatus) : (CustomRunStatus.mk c s t rs).StartTime = s := rfl

@[simp] theorem CustomRunStatus.completionTime_mk (c : Option GithubStatus.Condition) (s t : Option Time)
    (rs : List CustomRunStatus) : (CustomRunStatus.mk c s t rs).CompletionTime = t := rfl

@[simp] theorem CustomRunStatus.retriesStatus_mk (c : Option GithubStatus.Condition) (s t : Option Time)
    (rs : List CustomRunStatus) : (CustomRunStatus.mk c s t rs).RetriesStatus = rs := rfl

@[simp] theorem CustomRunStatus.eta (st : CustomRunStatus) :
    CustomRunStatus.mk st.Condition st.StartTime st.CompletionTime st.RetriesStatus = st := by
  cases st; rfl

theorem find_name_of_nodup (ps : List Param) (p : Param) (hp : p ∈ ps)
    (hnd : (ps.map (fun q => q.Name)).Nodup) :
    ps.find? (fun q => q.Name = p.Name) = some p := by
  induction ps with
  | nil => cases hp
  | cons q qs ih =>
    simp only [List.map_cons, List.nodup_cons] at hnd
    rcases List.mem_cons.mp hp with rfl | hmem
    · simp
    · have hne : q.Name ≠ p.Name := by
        intro h
        apply hnd.1
        rw [h]
        exact List.mem_map_of_mem _ hmem
      simp [List.find?_cons, hne, ih hmem hnd.2]

theorem paramMissing_eq_false_iff (r : CustomRun) (n : String) :
    paramMissing r n = false ↔
      ∃ p, r.Spec.GetParam n = some p ∧ p.Value.StringVal ≠ "" := by
  unfold paramMissing
  cases h : r.Spec.GetParam n <;> simp

theorem Validate_eq_none_iff (r : CustomRun) :
    Validate r = none ↔ ∀ n ∈ requiredNames, paramMissing r n = false := by
  unfold Validate
  simp only [requiredNames, List.forall_mem_cons, List.not_mem_nil, false_implies, implies_true, and_true]
  constructor
  · intro h
    split_ifs at h
    simp_all
  · rintro ⟨h1, h2, h3, h4, h5, h6, h7, h8, h9⟩
    simp [h1, h2, h3, h4, h5, h6, h7, h8, h9]

theorem requiredNames_nodup : requiredNames.Nodup := by decide

theorem exactParams_of_checks (r : CustomRun) (hv : Validate r = none)
    (hlen : r.Spec.Params.length = 9) : ExactParams r.Spec.Params := by
  have hall := (Validate_eq_none_iff r).mp hv
  have hsub : requiredNames ⊆ r.Spec.Params.map (fun p => p.Name) := by
    intro n hn
    obtain ⟨p, hp, _⟩ := (paramMissing_eq_false_iff r n).mp (hall n hn)
    have hmem := List.mem_of_find?_eq_some hp
    have hname : p.Name = n := by simpa using List.find?_some hp
    exact hname ▸ List.mem_map_of_mem _ hmem
  have hperm : (r.Spec.Params.map (fun p => p.Name)).Perm requiredNames :=
    ((List.subperm_of_subset requiredNames_nodup hsub).perm_of_length_le
      (by simp [hlen, requiredNames])).symm
  refine ⟨hperm, ?_⟩
  intro p hp
  have hnd : (r.Spec.Params.map (fun q => q.Name)).Nodup :=
    hperm.symm.nodup_iff.mp requiredNames_nodup
  have hreq : p.Name ∈ requiredNames := hperm.subset (List.mem_map_of_mem _ hp)
  obtain ⟨q, hq, hne⟩ := (paramMissing_eq_false_iff r p.Name).mp (hall _ hreq)
  have : q = p := by
    have := find_name_of_nodup r.Spec.Params p hp hnd
    unfold CustomRunSpec.GetParam at hq
    rw [this] at hq
    exact (Option.some.inj hq).symm
  exact this ▸ hne

theorem checks_of_exactParams (r : CustomRun) (h : ExactParams r.Spec.Params) :
    Validate r = none ∧ r.Spec.Params.length = 9 := by
  obtain ⟨hperm, hne⟩ := h
  constructor
  · rw [Validate_eq_none_iff]
    intro n hn
    rw [paramMissing_eq_false_iff]
    have hmem : n ∈ r.Spec.Params.map (fun p => p.Name) := hperm.symm.subset hn
    obtain ⟨p, hp, hname⟩ := List.mem_map.mp hmem
    have hnd : (r.Spec.Params.map (fun q => q.Name)).Nodup :=
      hperm.symm.nodup_iff.mp requiredNames_nodup
    refine ⟨p, ?_, hne p hp⟩
    have := find_name_of_nodup r.Spec.Params p hp hnd
    unfold CustomRunSpec.GetParam
    rw [← hname]; exact this
  · have := hperm.length_eq
    simpa [requiredNames] using this


theorem paramString_of_not_missing (r : CustomRun) (n : String)
    (h : paramMissing r n = false) : paramString r n = some (paramValue r n) := by
  obtain ⟨p, hp, _⟩ := (paramMissing_eq_false_iff r n).mp h
  simp [paramValue, paramString, hp]

theorem reconcile_irrelevant (c : Reconciler) (rep : StatusReporter) (r : CustomRun)
    (h : ¬ Relevant r) : ReconcileKind c rep r = some ⟨r.Status, .nil, []⟩ := by
  unfold ReconcileKind
  unfold Relevant at h
  cases hr : r.Spec.CustomRef with
  | none => rfl
  | some ref =>
    rw [hr] at h
    simp only
    rw [if_pos]
    by_contra hc
    push_neg at hc
    exact h hc

theorem reconcile_refname (c : Reconciler) (rep : StatusReporter) (r : CustomRun)
    (ref : CustomRef) (href : r.Spec.CustomRef = some ref) (h : Relevant r)
    (hn : ref.Name ≠ "") :
    ReconcileKind c rep r = some ⟨MarkCustomRunFailed c.WallNow r.Status "UnexpectedName"
      "Found unexpected ref name: %s" [ref.Name], .nil, []⟩ := by
  unfold ReconcileKind
  unfold Relevant at h
  rw [href] at h
  simp [href, h.1, h.2, hn]

theorem reconcile_missing (c : Reconciler) (rep : StatusReporter) (r : CustomRun)
    (h : Relevant r) (hn : RefNameEmpty r) (e : String) (hv : Validate r = some e) :
    ReconcileKind c rep r = some ⟨MarkCustomRunFailed c.WallNow r.Status "MissingParameter" e [],
      .nil, []⟩ := by
  unfold ReconcileKind
  unfold Relevant at h
  unfold RefNameEmpty at hn
  cases href : r.Spec.CustomRef with
  | none => rw [href] at h; exact h.elim
  | some ref =>
    rw [href] at h hn
    simp [h.1, h.2, hn, hv]

theorem reconcile_count (c : Reconciler) (rep : StatusReporter) (r : CustomRun)
    (h : Relevant r) (hn : RefNameEmpty r) (hv : Validate r = none)
    (hlen : r.Spec.Params.length ≠ 9) :
    ReconcileKind c rep r = some ⟨MarkCustomRunFailed c.WallNow r.Status "UnexpectedParams"
      "Found unexpected params: %v" [formatStrings (unexpectedNames r.Spec.Params)],
      .nil, []⟩ := by
  unfold ReconcileKind
  unfold Relevant at h
  unfold RefNameEmpty at hn
  cases href : r.Spec.CustomRef with
  | none => rw [href] at h; exact h.elim
  | some ref =>
    rw [href] at h hn
    simp [h.1, h.2, hn, hv, hlen]

theorem reconcile_checked (c : Reconciler) (rep : StatusReporter) (r : CustomRun)
    (h : Relevant r) (hn : RefNameEmpty r) (hv : Validate r = none)
    (hlen : r.Spec.Params.length = 9) :
    ReconcileKind c rep r = reconcileChecked c rep r := by
  have hall := (Validate_eq_none_iff r).mp hv
  simp only [requiredNames, List.forall_mem_cons, List.not_mem_nil, false_implies,
    implies_true, and_true] at hall
  obtain ⟨h1, h2, h3, h4, h5, h6, h7, h8, h9⟩ := hall
  unfold ReconcileKind reconcileChecked
  unfold Relevant at h
  unfold RefNameEmpty at hn
  cases href : r.Spec.CustomRef with
  | none => rw [href] at h; exact h.elim
  | some ref =>
    rw [href] at h hn
    simp [h.1, h.2, hn, hv, hlen, paramString_of_not_missing, h1, h2, h3, h4, h5, h6, h7, h8, h9]

theorem reconcile_wellformed (c : Reconciler) (rep : StatusReporter) (r : CustomRun)
    (h : Relevant r) (hw : WellFormed r) :
    ReconcileKind c rep r = reconcileChecked c rep r :=
  reconcile_checked c rep r h hw.1 (checks_of_exactParams r hw.2).1
    (checks_of_exactParams r hw.2).2

/-! ## The start block -/

theorem start_of_started (c : Reconciler) (r : CustomRun) (h : r.HasStarted = true) :
    startIfNotStarted c r = r := by
  simp [startIfNotStarted, h]

theorem transitionTime_of_reason_ne (k : Condition) (status : ConditionStatus)
    (reason message : String) (now : Time) (h : k.Reason ≠ reason) :
    transitionTime (some k) status reason message now = now := by
  simp [transitionTime, h]

theorem transitionTime_of_not_done (st : CustomRunStatus) (status : ConditionStatus)
    (reason message : String) (now : Time) (hd : st.IsDone = false)
    (hs : status ≠ .ConditionUnknown) :
    transitionTime st.Condition status reason message now = now := by
  unfold CustomRunStatus.IsDone at hd
  cases hc : st.Condition with
  | none => rfl
  | some k =>
    rw [hc] at hd
    have hk : k.Status = .ConditionUnknown := by simpa using hd
    have : k.Status ≠ status := by rw [hk]; exact fun h => hs h.symm
    simp [transitionTime, this]

theorem transitionTime_same (k : Condition) (now : Time) :
    transitionTime (some k) k.Status k.Reason k.Message now = k.LastTransitionTime := by
  simp [transitionTime]

theorem start_of_not_started (c : Reconciler) (r : CustomRun) (h : r.HasStarted = false) :
    startIfNotStarted c r = ⟨r.Spec, .mk (some ⟨.ConditionUnknown, "Running",
      "Waiting for duration to elapse", c.WallNow⟩) (some c.Clock.Now)
      r.Status.CompletionTime r.Status.RetriesStatus⟩ := by
  have hmsg : Sprintf "Waiting for duration to elapse" [] = "Waiting for duration to elapse" := by
    decide
  have hns : r.Status.StartTime = none := by
    cases hs : r.Status.StartTime with
    | none => rfl
    | some t => simp [CustomRun.HasStarted, hs] at h
  have hne : "Started" ≠ "Running" := by decide
  simp only [startIfNotStarted, h, MarkCustomRunRunning, hmsg, InitializeConditions, hns]
  cases hc : r.Status.Condition <;>
    simp [SetCondition, hc, transitionTime_of_reason_ne, hne]

@[simp] theorem start_spec (c : Reconciler) (r : CustomRun) :
    (startIfNotStarted c r).Spec = r.Spec := by
  cases h : r.HasStarted
  · rw [start_of_not_started c r h]
  · rw [start_of_started c r h]

theorem start_startTime (c : Reconciler) (r : CustomRun) :
    (startIfNotStarted c r).Status.StartTime = some (r.Status.StartTime.getD c.Clock.Now) := by
  cases h : r.HasStarted
  · rw [start_of_not_started c r h]
    cases hs : r.Status.StartTime with
    | none => simp
    | some t => simp [CustomRun.HasStarted, hs] at h
  · rw [start_of_started c r h]
    cases hs : r.Status.StartTime with
    | none => simp [CustomRun.HasStarted, hs] at h
    | some t => simp

@[simp] theorem start_completionTime (c : Reconciler) (r : CustomRun) :
    (startIfNotStarted c r).Status.CompletionTime = r.Status.CompletionTime := by
  cases h : r.HasStarted
  · rw [start_of_not_started c r h]; rfl
  · rw [start_of_started c r h]

@[simp] theorem start_retriesStatus (c : Reconciler) (r : CustomRun) :
    (startIfNotStarted c r).Status.RetriesStatus = r.Status.RetriesStatus := by
  cases h : r.HasStarted
  · rw [start_of_not_started c r h]; rfl
  · rw [start_of_started c r h]

theorem start_isDone (c : Reconciler) (r : CustomRun) :
    (startIfNotStarted c r).IsDone = (r.HasStarted && r.IsDone) := by
  cases h : r.HasStarted
  · rw [start_of_not_started c r h]; rfl
  · rw [start_of_started c r h]; simp

@[simp] theorem start_isCancelled (c : Reconciler) (r : CustomRun) :
    (startIfNotStarted c r).IsCancelled = r.IsCancelled := by
  simp [CustomRun.IsCancelled]

@[simp] theorem start_getTimeout (c : Reconciler) (r : CustomRun) :
    (startIfNotStarted c r).GetTimeout = r.GetTimeout := by
  simp [CustomRun.GetTimeout]

/-! ## The branches after the parameter checks -/

theorem checked_done (c : Reconciler) (rep : StatusReporter) (r : CustomRun)
    (hs : r.HasStarted = true) (hd : r.IsDone = true) :
    reconcileChecked c rep r = some ⟨r.Status, .nil, []⟩ := by
  simp [reconcileChecked, reconcileRun, start_of_started c r hs, hd]

/-- The message of a cancelled run: the supplied one, the default when it is empty. -/
theorem checked_cancelled (c : Reconciler) (rep : StatusReporter) (r : CustomRun)
    (hd : (startIfNotStarted c r).IsDone = false) (hc : r.IsCancelled = true) :
    reconcileChecked c rep r = some ⟨MarkCustomRunFailed c.WallNow
      ((startIfNotStarted c r).Status.setCompletionTime (some c.Clock.Now)) "Cancelled"
      (if r.Spec.StatusMessage = "" then WaitTaskCancelledMsg else r.Spec.StatusMessage) [],
      .nil, []⟩ := by
  simp [reconcileChecked, reconcileRun, hd, hc]

theorem checked_retry (c : Reconciler) (rep : StatusReporter) (r : CustomRun)
    (hd : (startIfNotStarted c r).IsDone = false) (hc : r.IsCancelled = false)
    (ht : r.GetTimeout < c.Clock.Since (r.Status.StartTime.getD c.Clock.Now))
    (hr : (r.Status.RetriesStatus.length : Int) < r.Spec.Retries) :
    reconcileChecked c rep r = some ⟨(retryCustomRun c.WallNow (startIfNotStarted c r)
      ⟨.ConditionFalse, "TimedOut", "", 0⟩).Status, .requeueImmediately, []⟩ := by
  simp [reconcileChecked, reconcileRun, hd, hc, start_startTime, ht, hr]

theorem checked_timedOut (c : Reconciler) (rep : StatusReporter) (r : CustomRun)
    (hd : (startIfNotStarted c r).IsDone = false) (hc : r.IsCancelled = false)
    (ht : r.GetTimeout < c.Clock.Since (r.Status.StartTime.getD c.Clock.Now))
    (hr : ¬ (r.Status.RetriesStatus.length : Int) < r.Spec.Retries) :
    reconcileChecked c rep r = some ⟨MarkCustomRunFailed c.WallNow
      ((startIfNotStarted c r).Status.setCompletionTime (some c.Clock.Now)) "TimedOut"
      WaitTaskFailedOnRunTimeoutMsg [], .nil, []⟩ := by
  simp [reconcileChecked, reconcileRun, hd, hc, start_startTime, ht, hr]

theorem checked_reporter_error (c : Reconciler) (rep : StatusReporter) (r : CustomRun)
    (hd : (startIfNotStarted c r).IsDone = false) (hc : r.IsCancelled = false)
    (ht : ¬ r.GetTimeout < c.Clock.Since (r.Status.StartTime.getD c.Clock.Now))
    (e : String) (he : rep.answer (reporterCall r) = some e) :
    reconcileChecked c rep r = some ⟨MarkCustomRunFailed c.WallNow
      ((startIfNotStarted c r).Status.setCompletionTime (some c.Clock.Now)) "Failed" e [],
      .nil, [reporterCall r]⟩ := by
  simp only [StatusReporter.answer, reporterCall] at he
  simp [reconcileChecked, reconcileRun, hd, hc, start_startTime, ht, he, reporterCall]

theorem checked_reporter_ok (c : Reconciler) (rep : StatusReporter) (r : CustomRun)
    (hd : (startIfNotStarted c r).IsDone = false) (hc : r.IsCancelled = false)
    (ht : ¬ r.GetTimeout < c.Clock.Since (r.Status.StartTime.getD c.Clock.Now))
    (he : rep.answer (reporterCall r) = none) :
    reconcileChecked c rep r = some ⟨MarkCustomRunSucceeded c.WallNow (startIfNotStarted c r).Status
      "GithubStatusSet" "The github status was set" [], .nil, [reporterCall r]⟩ := by
  simp only [StatusReporter.answer, reporterCall] at he
  simp [reconcileChecked, reconcileRun, hd, hc, start_startTime, ht, he, reporterCall]

/-! ## The paths of a reconciliation -/

/-- The three ways in which `ReconcileKind` ends before the start block, and the hand-over
to the code after the checks. -/
theorem reconcile_cases (c : Reconciler) (rep : StatusReporter) (r : CustomRun) :
    (¬ Relevant r ∧ ReconcileKind c rep r = some ⟨r.Status, .nil, []⟩) ∨
    (Relevant r ∧ ¬ PassesChecks r ∧ ∃ reason format args,
      (reason = "UnexpectedName" ∨ reason = "MissingParameter" ∨ reason = "UnexpectedParams") ∧
      ReconcileKind c rep r =
        some ⟨MarkCustomRunFailed c.WallNow r.Status reason format args, .nil, []⟩) ∨
    (Relevant r ∧ PassesChecks r ∧ ReconcileKind c rep r = reconcileChecked c rep r) := by
  by_cases hrel : Relevant r
  · right
    by_cases hn : RefNameEmpty r
    · cases hv : Validate r with
      | some e =>
        left
        have hnot : ¬ PassesChecks r := fun h => by
          have := h.2.1; rw [hv] at this; cases this
        refine ⟨hrel, hnot, _, _, _, Or.inr (Or.inl rfl),
          reconcile_missing c rep r hrel hn e hv⟩
      | none =>
        by_cases hlen : r.Spec.Params.length = 9
        · right
          exact ⟨hrel, ⟨hn, hv, hlen⟩, reconcile_checked c rep r hrel hn hv hlen⟩
        · left
          exact ⟨hrel, fun h => hlen h.2.2, _, _, _, Or.inr (Or.inr rfl),
            reconcile_count c rep r hrel hn hv hlen⟩
    · left
      cases href : r.Spec.CustomRef with
      | none => simp [RefNameEmpty, href] at hn
      | some ref =>
        have hne : ref.Name ≠ "" := by simpa [RefNameEmpty, href] using hn
        exact ⟨hrel, fun h => hn h.1, _, _, _, Or.inl rfl,
          reconcile_refname c rep r ref href hrel hne⟩
  · left
    exact ⟨hrel, reconcile_irrelevant c rep r hrel⟩

/-- The six ways in which the code after the parameter checks ends. -/
theorem checked_cases (c : Reconciler) (rep : StatusReporter) (r : CustomRun) :
    (r.HasStarted = true ∧ r.IsDone = true ∧
      reconcileChecked c rep r = some ⟨r.Status, .nil, []⟩) ∨
    ((startIfNotStarted c r).IsDone = false ∧ r.IsCancelled = true ∧
      reconcileChecked c rep r = some ⟨MarkCustomRunFailed c.WallNow
        ((startIfNotStarted c r).Status.setCompletionTime (some c.Clock.Now)) "Cancelled"
        (if r.Spec.StatusMessage = "" then WaitTaskCancelledMsg else r.Spec.StatusMessage) [],
        .nil, []⟩) ∨
    ((startIfNotStarted c r).IsDone = false ∧ r.IsCancelled = false ∧
      r.GetTimeout < c.Clock.Since (r.Status.StartTime.getD c.Clock.Now) ∧
      (r.Status.RetriesStatus.length : Int) < r.Spec.Retries ∧
      reconcileChecked c rep r = some ⟨(retryCustomRun c.WallNow (startIfNotStarted c r)
        ⟨.ConditionFalse, "TimedOut", "", 0⟩).Status, .requeueImmediately, []⟩) ∨
    ((startIfNotStarted c r).IsDone = false ∧ r.IsCancelled = false ∧
      r.GetTimeout < c.Clock.Since (r.Status.StartTime.getD c.Clock.Now) ∧
      ¬ (r.Status.RetriesStatus.length : Int) < r.Spec.Retries ∧
      reconcileChecked c rep r = some ⟨MarkCustomRunFailed c.WallNow
        ((startIfNotStarted c r).Status.setCompletionTime (some c.Clock.Now)) "TimedOut"
        WaitTaskFailedOnRunTimeoutMsg [], .nil, []⟩) ∨
    ((startIfNotStarted c r).IsDone = false ∧ r.IsCancelled = false ∧
      ¬ r.GetTimeout < c.Clock.Since (r.Status.StartTime.getD c.Clock.Now) ∧
      ∃ e, rep.answer (reporterCall r) = some e ∧
      reconcileChecked c rep r = some ⟨MarkCustomRunFailed c.WallNow
        ((startIfNotStarted c r).Status.setCompletionTime (some c.Clock.Now)) "Failed" e [],
        .nil, [reporterCall r]⟩) ∨
    ((startIfNotStarted c r).IsDone = false ∧ r.IsCancelled = false ∧
      ¬ r.GetTimeout < c.Clock.Since (r.Status.StartTime.getD c.Clock.Now) ∧
      rep.answer (reporterCall r) = none ∧
      reconcileChecked c rep r = some ⟨MarkCustomRunSucceeded c.WallNow (startIfNotStarted c r).Status
        "GithubStatusSet" "The github status was set" [], .nil, [reporterCall r]⟩) := by
  cases hd : (startIfNotStarted c r).IsDone with
  | true =>
    left
    rw [start_isDone] at hd
    simp only [Bool.and_eq_true] at hd
    exact ⟨hd.1, hd.2, checked_done c rep r hd.1 hd.2⟩
  | false =>
    right
    cases hc : r.IsCancelled with
    | true => left; exact ⟨rfl, rfl, checked_cancelled c rep r hd hc⟩
    | false =>
      right
      by_cases ht : r.GetTimeout < c.Clock.Since (r.Status.StartTime.getD c.Clock.Now)
      · by_cases hr : (r.Status.RetriesStatus.length : Int) < r.Spec.Retries
        · left; exact ⟨rfl, rfl, ht, hr, checked_retry c rep r hd hc ht hr⟩
        · right; left; exact ⟨rfl, rfl, ht, hr, checked_timedOut c rep r hd hc ht hr⟩
      · right; right
        cases he : rep.answer (reporterCall r) with
        | some e => left; exact ⟨rfl, rfl, ht, e, rfl, checked_reporter_error c rep r hd hc ht e he⟩
        | none => right; exact ⟨rfl, rfl, ht, rfl, checked_reporter_ok c rep r hd hc ht he⟩

/-- The reconciliation always returns: none of the nil dereferences is reached. -/
theorem reconcile_total (c : Reconciler) (rep : StatusReporter) (r : CustomRun) :
    ∃ o, ReconcileKind c rep r = some o := by
  rcases reconcile_cases c rep r with h | h | h
  · exact ⟨_, h.2⟩
  · obtain ⟨_, _, _, _, _, _, h⟩ := h
    exact ⟨_, h⟩
  · rw [h.2.2]
    rcases checked_cases c rep r with h | h | h | h | h | h
    · exact ⟨_, h.2.2⟩
    · exact ⟨_, h.2.2⟩
    · exact ⟨_, h.2.2.2.2⟩
    · exact ⟨_, h.2.2.2.2⟩
    · obtain ⟨_, _, _, e, _, h⟩ := h
      exact ⟨_, h⟩
    · exact ⟨_, h.2.2.2.2⟩

/-! ## Terminal states (C1) -/

theorem markFailed_eq (now : Time) (st : CustomRunStatus) (reason format : String)
    (args : List String) :
    MarkCustomRunFailed now st reason format args =
      .mk (some ⟨.ConditionFalse, reason, Sprintf format args,
          transitionTime st.Condition .ConditionFalse reason (Sprintf format args) now⟩)
        st.StartTime
        (some (transitionTime st.Condition .ConditionFalse reason (Sprintf format args) now))
        st.RetriesStatus := rfl

theorem markSucceeded_eq (now : Time) (st : CustomRunStatus) (reason format : String)
    (args : List String) :
    MarkCustomRunSucceeded now st reason format args =
      .mk (some ⟨.ConditionTrue, reason, Sprintf format args,
          transitionTime st.Condition .ConditionTrue reason (Sprintf format args) now⟩)
        st.StartTime
        (some (transitionTime st.Condition .ConditionTrue reason (Sprintf format args) now))
        st.RetriesStatus := rfl

/-- Marking a status Failed again, with the reason and message it was last marked with,
changes nothing, whatever the process clock reads by then. -/
theorem markFailed_idem (now earlier : Time) (st : CustomRunStatus) (reason format : String)
    (args : List String) :
    MarkCustomRunFailed now (MarkCustomRunFailed earlier st reason format args) reason format
        args =
      MarkCustomRunFailed earlier st reason format args := by
  simp [markFailed_eq, transitionTime]

/-- A status that is not terminal, marked Failed: the condition and CompletionTime carry
the process clock, whatever CompletionTime was assigned just before. -/
theorem markFailed_of_not_done (now : Time) (st : CustomRunStatus) (t : Option Time)
    (reason format : String) (args : List String) (hd : st.IsDone = false) :
    MarkCustomRunFailed now (st.setCompletionTime t) reason format args =
      .mk (some ⟨.ConditionFalse, reason, Sprintf format args, now⟩) st.StartTime (some now)
        st.RetriesStatus := by
  rw [markFailed_eq]
  have h := transitionTime_of_not_done st .ConditionFalse reason (Sprintf format args) now hd
    (by decide)
  simp [h]

theorem markSucceeded_of_not_done (now : Time) (st : CustomRunStatus)
    (reason format : String) (args : List String) (hd : st.IsDone = false) :
    MarkCustomRunSucceeded now st reason format args =
      .mk (some ⟨.ConditionTrue, reason, Sprintf format args, now⟩) st.StartTime (some now)
        st.RetriesStatus := by
  rw [markSucceeded_eq]
  have h := transitionTime_of_not_done st .ConditionTrue reason (Sprintf format args) now hd
    (by decide)
  simp [h]

theorem retry_status_eq (now : Time) (r : CustomRun) (k : Condition) :
    (retryCustomRun now r k).Status =
      .mk (some ⟨.ConditionUnknown, "Retrying", "",
          transitionTime r.Status.Condition .ConditionUnknown "Retrying" "" now⟩) none
        r.Status.CompletionTime
        (r.Status.RetriesStatus ++ [.mk (some ⟨k.Status, k.Reason, k.Message,
          transitionTime r.Status.Condition k.Status k.Reason k.Message now⟩)
          r.Status.StartTime r.Status.CompletionTime []]) := by
  have hmsg : Sprintf "" [] = "" := by decide
  simp [retryCustomRun, MarkCustomRunRunning, SetCondition, hmsg]

theorem retry_not_done (now : Time) (r : CustomRun) (c : Condition) :
    (retryCustomRun now r c).Status.IsDone = false := by
  simp [retryCustomRun, MarkCustomRunRunning, SetCondition, CustomRunStatus.IsDone]

/-- A terminal status left by the code after the parameter checks has its StartTime set. -/
theorem checked_done_started (c : Reconciler) (rep : StatusReporter) (r : CustomRun)
    (o : Reconciled) (h : reconcileChecked c rep r = some o) (hd : o.Status.IsDone = true) :
    o.Status.StartTime.isSome = true := by
  have hst := start_startTime c r
  rcases checked_cases c rep r with h1 | h1 | h1 | h1 | h1 | h1
  · rw [h1.2.2] at h
    cases h
    exact h1.1
  · rw [h1.2.2] at h
    cases h
    simp [markFailed_eq, hst]
  · rw [h1.2.2.2.2] at h
    cases h
    rw [retry_not_done] at hd
    cases hd
  · rw [h1.2.2.2.2] at h
    cases h
    simp [markFailed_eq, hst]
  · obtain ⟨_, _, _, e, _, h2⟩ := h1
    rw [h2] at h
    cases h
    simp [markFailed_eq, hst]
  · rw [h1.2.2.2.2] at h
    cases h
    simp [markSucceeded_eq, hst]

/-- C1, as stated, fails: a task whose phase is Succeeded but whose reference carries a
name is moved to Failed with reason UnexpectedName, and a well-formed task whose phase is
Failed but whose StartTime is not set is started again, the Status Reporter is called and
the phase becomes Succeeded. -/
theorem terminal_status_can_change :
    succeededNamedRun.IsDone = true ∧
    (ReconcileKind (wallClock 5) okReporter succeededNamedRun).map
      (fun o => o.Status.Condition) =
      some (some ⟨.ConditionFalse, "UnexpectedName", "Found unexpected ref name: x", 5⟩) ∧
    failedUnstartedRun.IsDone = true ∧
    (ReconcileKind (wallClock 5) okReporter failedUnstartedRun).map
      (fun o => (o.Status.Condition, o.Status.StartTime, o.Calls.length)) =
      some (some ⟨.ConditionTrue, "GithubStatusSet", "The github status was set", 5⟩,
        some 5, 1) := by
  decide

/-- C1, amended: a task whose phase is terminal is returned unchanged, with no Status
Reporter call and no requeue, when it is not relevant, or when it is well-formed and has
started, or when its status is the one left by an earlier reconciliation of the same
task. -/
theorem terminal_reconcile_is_noop (c : Reconciler) (rep : StatusReporter) (r : CustomRun)
    (hdone : r.IsDone = true)
    (h : ¬ Relevant r ∨ (WellFormed r ∧ r.HasStarted = true) ∨
      ∃ c0 rep0 st0 o, ReconcileKind c0 rep0 ⟨r.Spec, st0⟩ = some o ∧ o.Status = r.Status) :
    ReconcileKind c rep r = some ⟨r.Status, .nil, []⟩ := by
  rcases h with h | ⟨hw, hs⟩ | ⟨c0, rep0, st0, o, ho, hst⟩
  · exact reconcile_irrelevant c rep r h
  · by_cases hrel : Relevant r
    · rw [reconcile_wellformed c rep r hrel hw]
      exact checked_done c rep r hs hdone
    · exact reconcile_irrelevant c rep r hrel
  · by_cases hrel : Relevant r
    · have hrel0 : Relevant ⟨r.Spec, st0⟩ := hrel
      by_cases hn : RefNameEmpty r
      · have hn0 : RefNameEmpty ⟨r.Spec, st0⟩ := hn
        cases hv : Validate r with
        | some e =>
          have hv0 : Validate ⟨r.Spec, st0⟩ = some e := hv
          rw [reconcile_missing c0 rep0 ⟨r.Spec, st0⟩ hrel0 hn0 e hv0] at ho
          cases ho
          rw [reconcile_missing c rep r hrel hn e hv, ← hst]
          simp only [markFailed_idem]
        | none =>
          have hv0 : Validate ⟨r.Spec, st0⟩ = none := hv
          by_cases hlen : r.Spec.Params.length = 9
          · rw [reconcile_checked c0 rep0 ⟨r.Spec, st0⟩ hrel0 hn0 hv0 hlen] at ho
            have hd0 : o.Status.IsDone = true := by rw [hst]; exact hdone
            have hs := checked_done_started c0 rep0 _ o ho hd0
            rw [hst] at hs
            rw [reconcile_checked c rep r hrel hn hv hlen]
            exact checked_done c rep r hs hdone
          · rw [reconcile_count c0 rep0 ⟨r.Spec, st0⟩ hrel0 hn0 hv0 hlen] at ho
            cases ho
            rw [reconcile_count c rep r hrel hn hv hlen, ← hst]
            simp only [markFailed_idem]
      · cases href : r.Spec.CustomRef with
        | none => simp [RefNameEmpty, href] at hn
        | some ref =>
          have hne : ref.Name ≠ "" := by simpa [RefNameEmpty, href] using hn
          rw [reconcile_refname c0 rep0 ⟨r.Spec, st0⟩ ref href hrel0 hne] at ho
          cases ho
          rw [reconcile_refname c rep r ref href hrel hne, ← hst]
          simp only [markFailed_idem]
    · exact reconcile_irrelevant c rep r hrel

/-- The amended C1 at the sample task after its success: reconciling it again changes
nothing. -/
theorem terminal_reconcile_is_noop_witness :
    succeededRun.IsDone = true ∧ WellFormed succeededRun ∧ succeededRun.HasStarted = true ∧
    ReconcileKind (wallClock 9) (failingReporter "boom") succeededRun =
      some ⟨succeededRun.Status, .nil, []⟩ :=
  ⟨rfl, ⟨rfl, List.Perm.refl _, by show ∀ p ∈ sampleParams, p.Value.StringVal ≠ ""; decide⟩,
    rfl,
    terminal_reconcile_is_noop (wallClock 9) (failingReporter "boom") succeededRun rfl
      (Or.inr (Or.inl ⟨⟨rfl, List.Perm.refl _,
        by show ∀ p ∈ sampleParams, p.Value.StringVal ≠ ""; decide⟩, rfl⟩))⟩

/-! ## The timeout and retry sequence (C2) -/

theorem sample_wellFormed (st : CustomRunStatus) : WellFormed ⟨sampleSpec, st⟩ := by
  refine ⟨rfl, List.Perm.refl _, ?_⟩
  show ∀ p ∈ sampleParams, p.Value.StringVal ≠ ""
  decide

theorem sample_relevant (st : CustomRunStatus) : Relevant ⟨sampleSpec, st⟩ :=
  ⟨rfl, rfl⟩

theorem start_not_done (c : Reconciler) (r : CustomRun)
    (h : r.Status.StartTime = none ∨ r.IsDone = false) :
    (startIfNotStarted c r).IsDone = false := by
  rw [start_isDone]
  rcases h with h | h
  · simp [CustomRun.HasStarted, h]
  · simp [h]

theorem step_retry (c : Reconciler) (rep : StatusReporter) (r : CustomRun)
    (hrel : Relevant r) (hw : WellFormed r) (hc : r.IsCancelled = false)
    (hrun : r.Status.StartTime = none ∨ r.IsDone = false)
    (ht : r.GetTimeout < c.Clock.Since (r.Status.StartTime.getD c.Clock.Now))
    (hr : (r.Status.RetriesStatus.length : Int) < r.Spec.Retries) :
    ∃ o, ReconcileKind c rep r = some o ∧
      IsRetryOutcome o (r.Status.RetriesStatus.length + 1) := by
  rw [reconcile_wellformed c rep r hrel hw,
    checked_retry c rep r (start_not_done c r hrun) hc ht hr]
  refine ⟨_, rfl, rfl, ?_, ?_, ?_, rfl⟩
  · rw [retry_status_eq]
    exact ⟨_, rfl⟩
  · rw [retry_status_eq]
    rfl
  · rw [retry_status_eq]
    simp

theorem step_timedOut (c : Reconciler) (rep : StatusReporter) (r : CustomRun)
    (hrel : Relevant r) (hw : WellFormed r) (hc : r.IsCancelled = false)
    (hrun : r.Status.StartTime = none ∨ r.IsDone = false)
    (ht : r.GetTimeout < c.Clock.Since (r.Status.StartTime.getD c.Clock.Now))
    (hr : ¬ (r.Status.RetriesStatus.length : Int) < r.Spec.Retries) :
    ∃ o, ReconcileKind c rep r = some o ∧
      IsTimedOutOutcome o c.WallNow r.Status.RetriesStatus.length ∧
      o.Status.StartTime = some (r.Status.StartTime.getD c.Clock.Now) := by
  have hmsg : Sprintf WaitTaskFailedOnRunTimeoutMsg [] = WaitTaskFailedOnRunTimeoutMsg := by
    decide
  rw [reconcile_wellformed c rep r hrel hw,
    checked_timedOut c rep r (start_not_done c r hrun) hc ht hr,
    markFailed_of_not_done _ _ _ _ _ _ (start_not_done c r hrun), hmsg]
  refine ⟨_, rfl, ⟨rfl, rfl, rfl, ?_, rfl⟩, ?_⟩
  · simp
  · simp [start_startTime]

theorem retry_sequence_aux (spec : CustomRunSpec) (st0 : CustomRunStatus)
    (hrel : Relevant ⟨spec, st0⟩) (hw : WellFormed ⟨spec, st0⟩)
    (hc : (⟨spec, st0⟩ : CustomRun).IsCancelled = false) (m : Nat) :
    ∀ (j : Nat) (st : CustomRunStatus) (d0 : Delivery) (ds : List Delivery),
      ds.length = m → spec.Retries = ((j + m : Nat) : Int) → st.RetriesStatus.length = j →
      (st.StartTime = none ∨ st.IsDone = false) →
      (∀ d ∈ d0 :: ds, d.Spec = spec) →
      (⟨spec, st0⟩ : CustomRun).GetTimeout <
        d0.Reconciler.Clock.Since (st.StartTime.getD d0.Reconciler.Clock.Now) →
      (∀ d ∈ ds, (⟨spec, st0⟩ : CustomRun).GetTimeout <
        d.Reconciler.Clock.Since d.Reconciler.Clock.Now) →
      ∃ outs, reconcileAll (d0 :: ds) st = some outs ∧ outs.length = m + 1 ∧
        (∀ k, k < m → ∃ o, outs[k]? = some o ∧ IsRetryOutcome o (j + k + 1)) ∧
        ∃ o d, outs[m]? = some o ∧ (d0 :: ds)[m]? = some d ∧
          IsTimedOutOutcome o d.Reconciler.WallNow (j + m) ∧
          o.Status.StartTime = some (if m = 0 then st.StartTime.getD d.Reconciler.Clock.Now
            else d.Reconciler.Clock.Now) := by
  induction m with
  | zero =>
    intro j st d0 ds hlen hret hj hrun hspec hobs0 _
    have hds : ds = [] := List.length_eq_zero.mp hlen
    subst hds
    have hs0 : d0.Spec = spec := hspec d0 (List.mem_cons_self _ _)
    have hr : ¬ ((⟨spec, st⟩ : CustomRun).Status.RetriesStatus.length : Int) <
        (⟨spec, st⟩ : CustomRun).Spec.Retries := by
      simp [hret, hj]
    obtain ⟨o, ho, hout, hst⟩ := step_timedOut d0.Reconciler d0.SetStatus ⟨spec, st⟩ hrel hw
      hc hrun hobs0 hr
    refine ⟨[o], ?_, rfl, ?_, o, d0, rfl, rfl, ?_, ?_⟩
    · simp [reconcileAll, hs0, ho]
    · intro k hk
      omega
    · simpa [hj] using hout
    · simpa using hst
  | succ m ih =>
    intro j st d0 ds hlen hret hj hrun hspec hobs0 hobs
    obtain ⟨d1, ds1, rfl⟩ := List.exists_cons_of_length_eq_add_one hlen
    have hs0 : d0.Spec = spec := hspec d0 (List.mem_cons_self _ _)
    have hr : ((⟨spec, st⟩ : CustomRun).Status.RetriesStatus.length : Int) <
        (⟨spec, st⟩ : CustomRun).Spec.Retries := by
      simp only [hret, hj]
      omega
    obtain ⟨o, ho, hout⟩ := step_retry d0.Reconciler d0.SetStatus ⟨spec, st⟩ hrel hw hc
      hrun hobs0 hr
    have hout1 := hout
    obtain ⟨_, _, hstart, hlen1, _⟩ := hout1
    obtain ⟨outs, houts, hl, hretries, hfinal⟩ := ih (j + 1) o.Status d1 ds1
      (by simpa using hlen) (by rw [hret]; push_cast; ring) (by simpa [hj] using hlen1)
      (Or.inl hstart) (fun d hd => hspec d (List.mem_cons_of_mem _ hd))
      (by rw [hstart]; exact hobs d1 (List.mem_cons_self _ _))
      (fun d hd => hobs d (List.mem_cons_of_mem _ hd))
    refine ⟨o :: outs, ?_, by simp [hl], ?_, ?_⟩
    · rw [reconcileAll, hs0, ho]
      simp only [houts, Option.map_some']
    · intro k hk
      cases k with
      | zero => exact ⟨o, by simp, by simpa [hj] using hout⟩
      | succ k =>
        obtain ⟨o1, ho1, hret1⟩ := hretries k (by omega)
        refine ⟨o1, by simpa using ho1, ?_⟩
        have : j + (k + 1) + 1 = j + 1 + k + 1 := by omega
        rw [this]; exact hret1
    · obtain ⟨o1, dl, ho1, hdl, hfin, hst1⟩ := hfinal
      refine ⟨o1, dl, by simpa using ho1, by simpa using hdl, ?_, ?_⟩
      · have : j + (m + 1) = j + 1 + m := by omega
        rw [this]; exact hfin
      · rw [hst1, hstart]
        simp

/-- C2: for a retry limit `n` and a relevant, well-formed, non-cancelled task that has
started, is Running and has an empty retry history, `n + 1` successive reconciliations
that each observe elapsed > Timeout return, in order, `n` retries (requeue immediately,
phase Running, StartTime cleared, history of length 1 to `n`, no reporter call) and then
the terminal Failed with reason TimedOut, CompletionTime set (to the reading of the
process clock at that reconciliation) and a history of length `n`; the StartTime cleared
by a retry is set again, to the clock's instant, by the reconciliation that follows. -/
theorem timeout_retry_sequence (n : Nat) (r : CustomRun) (t0 : Time) (d0 : Delivery)
    (ds : List Delivery)
    (hrel : Relevant r) (hw : WellFormed r) (hc : r.IsCancelled = false)
    (hret : r.Spec.Retries = (n : Int))
    (hstart : r.Status.StartTime = some t0) (hrun : r.IsDone = false)
    (hempty : r.Status.RetriesStatus = [])
    (hspec : ∀ d ∈ d0 :: ds, d.Spec = r.Spec) (hlen : ds.length = n)
    (hobs0 : r.GetTimeout < d0.Reconciler.Clock.Since t0)
    (hobs : ∀ d ∈ ds, r.GetTimeout < d.Reconciler.Clock.Since d.Reconciler.Clock.Now) :
    ∃ outs, reconcileAll (d0 :: ds) r.Status = some outs ∧ outs.length = n + 1 ∧
      (∀ k, k < n → ∃ o, outs[k]? = some o ∧ IsRetryOutcome o (k + 1)) ∧
      ∃ o d, outs[n]? = some o ∧ (d0 :: ds)[n]? = some d ∧
        IsTimedOutOutcome o d.Reconciler.WallNow n ∧
        o.Status.StartTime = some (if n = 0 then t0 else d.Reconciler.Clock.Now) := by
  have h := retry_sequence_aux r.Spec r.Status hrel hw hc n 0 r.Status d0 ds hlen
    (by simpa using hret) (by simp [hempty]) (Or.inr hrun) hspec
    (by rw [hstart]; exact hobs0) hobs
  simpa [hstart] using h

/-- C2 at the retry limit 2: three late deliveries of the running sample task. -/
theorem timeout_retry_sequence_witness :
    ∃ outs, reconcileAll [lateDelivery 20, lateDelivery 30, lateDelivery 40]
        runningRun.Status = some outs ∧ outs.length = 2 + 1 ∧
      (∀ k, k < 2 → ∃ o, outs[k]? = some o ∧ IsRetryOutcome o (k + 1)) ∧
      ∃ o d, outs[2]? = some o ∧
        [lateDelivery 20, lateDelivery 30, lateDelivery 40][2]? = some d ∧
        IsTimedOutOutcome o d.Reconciler.WallNow 2 ∧
        o.Status.StartTime = some (if 2 = 0 then 1 else d.Reconciler.Clock.Now) :=
  timeout_retry_sequence 2 runningRun 1 (lateDelivery 20) [lateDelivery 30, lateDelivery 40]
    (sample_relevant _) (sample_wellFormed _) (by decide) rfl rfl rfl rfl
    (by decide) rfl (by decide) (by decide)

/-! ## Success, CompletionTime and cancellation (C3, C4, C5) -/

/-- C3, as stated, fails: the first reconciliation of the fresh sample task, not cancelled,
not timed out and with a succeeding reporter, already calls the Status Reporter and leaves
the phase Succeeded, not Running. -/
theorem first_reconciliation_reports :
    freshRun.HasStarted = false ∧ freshRun.IsCancelled = false ∧
    ¬ freshRun.GetTimeout < (wallClock 5).Clock.Since (wallClock 5).Clock.Now ∧
    (ReconcileKind (wallClock 5) okReporter freshRun).map
      (fun o => (o.Status.Condition, o.Status.StartTime, o.Calls)) =
      some (some ⟨.ConditionTrue, "GithubStatusSet", "The github status was set", 5⟩, some 5,
        [reporterCall freshRun]) := by
  decide

/-- C3, amended: for every relevant, well-formed task that has not started, is not
cancelled and not timed out, and whose Status Reporter call succeeds, a single
reconciliation sets StartTime to the clock's instant, passes through the phase Running,
calls the Status Reporter once and leaves the phase Succeeded with reason
GithubStatusSet; a second reconciliation changes nothing and makes no call. -/
theorem success_in_one_reconciliation (c : Reconciler) (rep : StatusReporter) (r : CustomRun)
    (hrel : Relevant r) (hw : WellFormed r) (hns : r.Status.StartTime = none)
    (hc : r.IsCancelled = false)
    (ht : ¬ r.GetTimeout < c.Clock.Since c.Clock.Now)
    (hok : rep.answer (reporterCall r) = none) :
    (startIfNotStarted c r).Status = .mk (some ⟨.ConditionUnknown, "Running",
      "Waiting for duration to elapse", c.WallNow⟩) (some c.Clock.Now)
      r.Status.CompletionTime r.Status.RetriesStatus ∧
    ReconcileKind c rep r = some ⟨.mk (some ⟨.ConditionTrue, "GithubStatusSet",
      "The github status was set", c.WallNow⟩) (some c.Clock.Now) (some c.WallNow)
      r.Status.RetriesStatus, .nil, [reporterCall r]⟩ ∧
    ∀ (c2 : Reconciler) (rep2 : StatusReporter) (o : Reconciled),
      ReconcileKind c rep r = some o →
      ReconcileKind c2 rep2 ⟨r.Spec, o.Status⟩ = some ⟨o.Status, .nil, []⟩ := by
  have hs : r.HasStarted = false := by simp [CustomRun.HasStarted, hns]
  have hstart := start_of_not_started c r hs
  have hnd := start_not_done c r (Or.inl hns)
  have hrun : ReconcileKind c rep r = some ⟨.mk (some ⟨.ConditionTrue, "GithubStatusSet",
      "The github status was set", c.WallNow⟩) (some c.Clock.Now) (some c.WallNow)
      r.Status.RetriesStatus, .nil, [reporterCall r]⟩ := by
    have hmsg : Sprintf "The github status was set" [] = "The github status was set" := by
      decide
    rw [reconcile_wellformed c rep r hrel hw,
      checked_reporter_ok c rep r hnd hc (by rw [hns]; exact ht) hok,
      markSucceeded_of_not_done _ _ _ _ _ hnd, hmsg, hstart]
    simp
  refine ⟨by rw [hstart], hrun, ?_⟩
  intro c2 rep2 o ho
  rw [hrun] at ho
  cases ho
  have hw2 : WellFormed ⟨r.Spec, .mk (some ⟨.ConditionTrue, "GithubStatusSet",
      "The github status was set", c.WallNow⟩) (some c.Clock.Now) (some c.WallNow)
      r.Status.RetriesStatus⟩ := hw
  have hrel2 : Relevant ⟨r.Spec, .mk (some ⟨.ConditionTrue, "GithubStatusSet",
      "The github status was set", c.WallNow⟩) (some c.Clock.Now) (some c.WallNow)
      r.Status.RetriesStatus⟩ := hrel
  rw [reconcile_wellformed c2 rep2 _ hrel2 hw2]
  exact checked_done c2 rep2 _ rfl rfl

/-- A terminal status is returned unchanged when the task is not relevant, or well-formed
and started, or when the status is the one left by an earlier reconciliation of the same
task. -/
theorem terminal_unchanged (c : Reconciler) (rep : StatusReporter) (r : CustomRun)
    (hdone : r.IsDone = true)
    (h : ¬ Relevant r ∨ (WellFormed r ∧ r.HasStarted = true) ∨
      ∃ c0 rep0 st0 o, ReconcileKind c0 rep0 ⟨r.Spec, st0⟩ = some o ∧ o.Status = r.Status) :
    ReconcileKind c rep r = some ⟨r.Status, .nil, []⟩ := by
  by_cases hrel : Relevant r
  · by_cases hp : PassesChecks r
    · have hs : r.HasStarted = true := by
        rcases h with h | ⟨_, hs⟩ | ⟨c0, rep0, st0, o, ho, hst⟩
        · exact absurd hrel h
        · exact hs
        · have hrel0 : Relevant ⟨r.Spec, st0⟩ := hrel
          have hn0 : RefNameEmpty ⟨r.Spec, st0⟩ := hp.1
          have hv0 : Validate ⟨r.Spec, st0⟩ = none := hp.2.1
          rw [reconcile_checked c0 rep0 ⟨r.Spec, st0⟩ hrel0 hn0 hv0 hp.2.2] at ho
          have hd0 : o.Status.IsDone = true := by rw [hst]; exact hdone
          have hs := checked_done_started c0 rep0 _ o ho hd0
          rw [hst] at hs
          exact hs
      rw [reconcile_checked c rep r hrel hp.1 hp.2.1 hp.2.2]
      exact checked_done c rep r hs hdone
    · rcases h with h | ⟨hw, _⟩ | ⟨c0, rep0, st0, o, ho, hst⟩
      · exact absurd hrel h
      · exact absurd ⟨hw.1, checks_of_exactParams r hw.2⟩ hp
      · have hrel0 : Relevant ⟨r.Spec, st0⟩ := hrel
        by_cases hn : RefNameEmpty r
        · have hn0 : RefNameEmpty ⟨r.Spec, st0⟩ := hn
          cases hv : Validate r with
          | some e =>
            have hv0 : Validate ⟨r.Spec, st0⟩ = some e := hv
            rw [reconcile_missing c0 rep0 ⟨r.Spec, st0⟩ hrel0 hn0 e hv0] at ho
            cases ho
            rw [reconcile_missing c rep r hrel hn e hv, ← hst]
            simp only [markFailed_idem]
          | none =>
            have hv0 : Validate ⟨r.Spec, st0⟩ = none := hv
            have hlen : r.Spec.Params.length ≠ 9 := fun hl => hp ⟨hn, hv, hl⟩
            rw [reconcile_count c0 rep0 ⟨r.Spec, st0⟩ hrel0 hn0 hv0 hlen] at ho
            cases ho
            rw [reconcile_count c rep r hrel hn hv hlen, ← hst]
            simp only [markFailed_idem]
        · cases href : r.Spec.CustomRef with
          | none => simp [RefNameEmpty, href] at hn
          | some ref =>
            have hne : ref.Name ≠ "" := by simpa [RefNameEmpty, href] using hn
            rw [reconcile_refname c0 rep0 ⟨r.Spec, st0⟩ ref href hrel0 hne] at ho
            cases ho
            rw [reconcile_refname c rep r ref href hrel hne, ← hst]
            simp only [markFailed_idem]
  · exact reconcile_irrelevant c rep r hrel

/-- C4, as stated, fails in its second half: a reconciliation of a task that is already
terminal can change CompletionTime.  The Succeeded task completed at the instant 3 whose
reference carries a name is marked Failed and gets the CompletionTime 5, and the Failed
task completed at the instant 1 whose StartTime is not set is started again and gets the
CompletionTime 5. -/
theorem completionTime_can_change_after_terminal :
    succeededNamedRun.IsDone = true ∧ succeededNamedRun.Status.CompletionTime = some 3 ∧
    (ReconcileKind (wallClock 5) okReporter succeededNamedRun).map
      (fun o => (o.Status.IsDone, o.Status.CompletionTime)) = some (true, some 5) ∧
    failedUnstartedRun.IsDone = true ∧ failedUnstartedRun.Status.CompletionTime = some 1 ∧
    (ReconcileKind (wallClock 5) okReporter failedUnstartedRun).map
      (fun o => (o.Status.IsDone, o.Status.CompletionTime)) = some (true, some 5) := by
  decide

/-- C4, amended: every reconciliation that moves a task from a non-terminal phase into a
terminal phase sets CompletionTime in that same reconciliation, to the instant of the
move read from the process clock; a reconciliation that leaves the task non-terminal does
not change CompletionTime; and a reconciliation of a task that is already terminal does
not change it when the task is not relevant, or is well-formed and has started, or when
its status is the one left by an earlier reconciliation of the same task. -/
theorem completionTime_on_terminal_moves (c : Reconciler) (rep : StatusReporter)
    (r : CustomRun) :
    ∃ o, ReconcileKind c rep r = some o ∧
      (r.IsDone = false → o.Status.IsDone = true →
        o.Status.CompletionTime = some c.WallNow ∧
        ∃ k, o.Status.Condition = some k ∧ k.LastTransitionTime = c.WallNow) ∧
      (o.Status.IsDone = false → o.Status.CompletionTime = r.Status.CompletionTime) ∧
      (r.IsDone = true →
        (¬ Relevant r ∨ (WellFormed r ∧ r.HasStarted = true) ∨
          ∃ c0 rep0 st0 o0, ReconcileKind c0 rep0 ⟨r.Spec, st0⟩ = some o0 ∧
            o0.Status = r.Status) →
        o.Status.CompletionTime = r.Status.CompletionTime) := by
  have hthird : ∀ o, ReconcileKind c rep r = some o → r.IsDone = true →
      (¬ Relevant r ∨ (WellFormed r ∧ r.HasStarted = true) ∨
        ∃ c0 rep0 st0 o0, ReconcileKind c0 rep0 ⟨r.Spec, st0⟩ = some o0 ∧
          o0.Status = r.Status) →
      o.Status.CompletionTime = r.Status.CompletionTime := by
    intro o ho hd hfam
    rw [terminal_unchanged c rep r hd hfam] at ho
    cases ho
    rfl
  rcases reconcile_cases c rep r with h | h | h
  · refine ⟨_, h.2, ?_, fun _ => rfl, hthird _ h.2⟩
    intro hnd hd
    exact absurd hd (by simp [show r.Status.IsDone = false from hnd])
  · obtain ⟨_, _, reason, format, args, hreason, h⟩ := h
    refine ⟨_, h, ?_, ?_, hthird _ h⟩
    · intro hnd _
      have ht := transitionTime_of_not_done r.Status .ConditionFalse reason
        (Sprintf format args) c.WallNow hnd (by decide)
      rw [markFailed_eq, ht]
      exact ⟨rfl, _, rfl, rfl⟩
    · intro hd
      simp [markFailed_eq, CustomRunStatus.IsDone] at hd
  · rw [h.2.2]
    rcases checked_cases c rep r with h1 | h1 | h1 | h1 | h1 | h1
    · have hrun : ReconcileKind c rep r = some ⟨r.Status, .nil, []⟩ := by
        rw [h.2.2]; exact h1.2.2
      refine ⟨_, h1.2.2, ?_, fun _ => rfl, hthird _ hrun⟩
      intro hnd
      rw [h1.2.1] at hnd
      cases hnd
    · have hrun := h1.2.2
      rw [markFailed_of_not_done _ _ _ _ _ _ h1.1] at hrun
      refine ⟨_, hrun, ?_, ?_, hthird _ (by rw [h.2.2]; exact hrun)⟩
      · intro _ _
        exact ⟨rfl, _, rfl, rfl⟩
      · intro hd
        simp [CustomRunStatus.IsDone] at hd
    · have hrun := h1.2.2.2.2
      refine ⟨_, hrun, ?_, ?_, hthird _ (by rw [h.2.2]; exact hrun)⟩
      · intro _ hd
        rw [retry_not_done] at hd
        cases hd
      · intro _
        rw [retry_status_eq]
        simp
    · have hrun := h1.2.2.2.2
      rw [markFailed_of_not_done _ _ _ _ _ _ h1.1] at hrun
      refine ⟨_, hrun, ?_, ?_, hthird _ (by rw [h.2.2]; exact hrun)⟩
      · intro _ _
        exact ⟨rfl, _, rfl, rfl⟩
      · intro hd
        simp [CustomRunStatus.IsDone] at hd
    · obtain ⟨h0, _, _, e, _, hrun⟩ := h1
      rw [markFailed_of_not_done _ _ _ _ _ _ h0] at hrun
      refine ⟨_, hrun, ?_, ?_, hthird _ (by rw [h.2.2]; exact hrun)⟩
      · intro _ _
        exact ⟨rfl, _, rfl, rfl⟩
      · intro hd
        simp [CustomRunStatus.IsDone] at hd
    · have hrun := h1.2.2.2.2
      rw [markSucceeded_of_not_done _ _ _ _ _ h1.1] at hrun
      refine ⟨_, hrun, ?_, ?_, hthird _ (by rw [h.2.2]; exact hrun)⟩
      · intro _ _
        exact ⟨rfl, _, rfl, rfl⟩
      · intro hd
        simp [CustomRunStatus.IsDone] at hd

/-- C5: a relevant, well-formed, non-terminal task that is marked cancelled is moved to
Failed with reason Cancelled, whatever the elapsed time, the timeout and the retries
left: CompletionTime is set, the retry history is unchanged, no requeue is requested and
the Status Reporter is not called. -/
theorem cancellation_precedence (c : Reconciler) (rep : StatusReporter) (r : CustomRun)
    (hrel : Relevant r) (hw : WellFormed r) (hnd : r.IsDone = false)
    (hc : r.IsCancelled = true) :
    ∃ o, ReconcileKind c rep r = some o ∧
      o.Status.Condition = some ⟨.ConditionFalse, "Cancelled",
        Sprintf (if r.Spec.StatusMessage = "" then WaitTaskCancelledMsg
          else r.Spec.StatusMessage) [], c.WallNow⟩ ∧
      o.Status.CompletionTime = some c.WallNow ∧
      o.Status.RetriesStatus = r.Status.RetriesStatus ∧
      o.Event = .nil ∧ o.Calls = [] := by
  rw [reconcile_wellformed c rep r hrel hw,
    checked_cancelled c rep r (start_not_done c r (Or.inr hnd)) hc,
    markFailed_of_not_done _ _ _ _ _ _ (start_not_done c r (Or.inr hnd))]
  exact ⟨_, rfl, rfl, rfl, by simp, rfl, rfl⟩

/-- C5 at the running sample task, cancelled while elapsed > Timeout and two retries
remain. -/
theorem cancellation_precedence_witness :
    (cancelledRun.GetTimeout < (fixedElapsedClock 50 100).Clock.Since 1 ∧
      (cancelledRun.Status.RetriesStatus.length : Int) < cancelledRun.Spec.Retries) ∧
    ∃ o, ReconcileKind (fixedElapsedClock 50 100) okReporter cancelledRun = some o ∧
      o.Status.Condition = some ⟨.ConditionFalse, "Cancelled",
        Sprintf (if cancelledRun.Spec.StatusMessage = "" then WaitTaskCancelledMsg
          else cancelledRun.Spec.StatusMessage) [], (fixedElapsedClock 50 100).WallNow⟩ ∧
      o.Status.CompletionTime = some (fixedElapsedClock 50 100).WallNow ∧
      o.Status.RetriesStatus = cancelledRun.Status.RetriesStatus ∧
      o.Event = .nil ∧ o.Calls = [] :=
  ⟨by decide,
    cancellation_precedence (fixedElapsedClock 50 100) okReporter cancelledRun ⟨rfl, rfl⟩
      ⟨rfl, List.Perm.refl _, by show ∀ p ∈ sampleParams, p.Value.StringVal ≠ ""; decide⟩
      rfl rfl⟩

/-- The amended C3 at the fresh sample task. -/
theorem success_in_one_reconciliation_witness :
    ReconcileKind (wallClock 5) okReporter freshRun = some ⟨.mk (some ⟨.ConditionTrue,
      "GithubStatusSet", "The github status was set", (wallClock 5).WallNow⟩)
      (some (wallClock 5).Clock.Now) (some (wallClock 5).WallNow)
      freshRun.Status.RetriesStatus, .nil, [reporterCall freshRun]⟩ :=
  (success_in_one_reconciliation (wallClock 5) okReporter freshRun ⟨rfl, rfl⟩
    ⟨rfl, List.Perm.refl _, by show ∀ p ∈ sampleParams, p.Value.StringVal ≠ ""; decide⟩
    rfl rfl (by decide) rfl).2.1

/-! ## The parameter checks (C6, C7, C8, C9) -/

theorem paramMissing_iff_not_present (r : CustomRun) (n : String) :
    paramMissing r n = true ↔ ¬ ParamPresent r n := by
  rw [← Bool.not_eq_false, paramMissing_eq_false_iff]
  rfl

/-- The nine tests of `Validate` are a search for the first missing name. -/
theorem Validate_eq_find (r : CustomRun) :
    Validate r = (requiredNames.find? (fun n => paramMissing r n)).map
      (fun n => "The " ++ n ++ " param was not passed") := by
  unfold Validate
  simp only [requiredNames, List.find?_cons, List.find?_nil]
  split_ifs <;> simp_all

theorem Validate_message_plain (r : CustomRun) (e : String) (h : Validate r = some e) :
    Sprintf e [] = e := by
  unfold Validate at h
  split_ifs at h <;> cases h <;> decide

theorem getParam_eq_none_iff (r : CustomRun) (n : String) :
    r.Spec.GetParam n = none ↔ ∀ p ∈ r.Spec.Params, p.Name ≠ n := by
  simp [CustomRunSpec.GetParam, List.find?_eq_none]

/-- C6: for every relevant task with an empty ref name whose parameters lack one of the
nine required names, or carry an empty value for it, `ReconcileKind` leaves the task
Failed with reason MissingParameter and the message of `Validate`, leaves StartTime and
the retry history as they were, requests no requeue and does not call the Status
Reporter; CompletionTime is the instant of the condition's last change. -/
theorem missing_parameter_fails (c : Reconciler) (rep : StatusReporter) (r : CustomRun)
    (hrel : Relevant r) (hn : RefNameEmpty r) (n : String) (hreq : n ∈ requiredNames)
    (hmiss : (∀ p ∈ r.Spec.Params, p.Name ≠ n) ∨
      ∃ p, r.Spec.GetParam n = some p ∧ p.Value.StringVal = "") :
    ∃ e, Validate r = some e ∧
      ReconcileKind c rep r = some ⟨.mk (some ⟨.ConditionFalse, "MissingParameter", e,
          transitionTime r.Status.Condition .ConditionFalse "MissingParameter" e c.WallNow⟩)
        r.Status.StartTime
        (some (transitionTime r.Status.Condition .ConditionFalse "MissingParameter" e
          c.WallNow))
        r.Status.RetriesStatus, .nil, []⟩ := by
  have hm : paramMissing r n = true := by
    unfold paramMissing
    rcases hmiss with h | ⟨p, hp, he⟩
    · rw [(getParam_eq_none_iff r n).mpr h]
    · rw [hp]; simp [he]
  cases hv : Validate r with
  | none =>
    have := (Validate_eq_none_iff r).mp hv n hreq
    rw [hm] at this
    cases this
  | some e =>
    refine ⟨e, rfl, ?_⟩
    rw [reconcile_missing c rep r hrel hn e hv, markFailed_eq, Validate_message_plain r e hv]

/-- C6 at the fresh task that lacks `targetUrl`. -/
theorem missing_parameter_fails_witness :
    ∃ e, Validate incompleteRun = some e ∧
      ReconcileKind (wallClock 5) okReporter incompleteRun =
        some ⟨.mk (some ⟨.ConditionFalse, "MissingParameter", e,
            transitionTime incompleteRun.Status.Condition .ConditionFalse "MissingParameter" e
              (wallClock 5).WallNow⟩)
          incompleteRun.Status.StartTime
          (some (transitionTime incompleteRun.Status.Condition .ConditionFalse
            "MissingParameter" e (wallClock 5).WallNow))
          incompleteRun.Status.RetriesStatus, .nil, []⟩ :=
  missing_parameter_fails (wallClock 5) okReporter incompleteRun ⟨rfl, rfl⟩ rfl "targetUrl"
    (by decide) (Or.inl (by decide))

theorem unexpectedNames_eq_filter (ps : List Param) :
    unexpectedNames ps = (ps.map (fun p => p.Name)).filter (fun n => decide (n ∉ requiredNames)) := by
  unfold unexpectedNames
  rw [List.filter_map]
  congr 1
  apply List.filter_congr
  intro p _
  simp only [requiredNames, Function.comp, List.mem_cons, List.mem_singleton, List.not_mem_nil,
    or_false]
  by_cases h1 : p.Name = "revision" <;> by_cases h2 : p.Name = "baseUrl" <;>
    by_cases h3 : p.Name = "owner" <;> by_cases h4 : p.Name = "repository" <;>
    by_cases h5 : p.Name = "state" <;> by_cases h6 : p.Name = "description" <;>
    by_cases h7 : p.Name = "context" <;> by_cases h8 : p.Name = "targetUrl" <;>
    by_cases h9 : p.Name = "insecureSkipVerify" <;> simp [h1, h2, h3, h4, h5, h6, h7, h8, h9]

theorem sprintf_unexpected (x : String) :
    Sprintf "Found unexpected params: %v" [formatStrings [x]] =
      "Found unexpected params: [" ++ x ++ "]" := by
  have hx : " ".intercalate [x] = x := rfl
  apply String.ext
  simp [Sprintf, sprintfChars, printVerb, isFlag, formatStrings, hx]

/-- C7: for every relevant task with an empty ref name whose parameter names are the nine
required names and one extra name `x`, each required parameter non-empty, `ReconcileKind`
leaves the task Failed with reason UnexpectedParams, the list of unexpected names is
exactly `[x]` (and it is in general the list of the names outside the nine, in parameter
order), StartTime and the retry history are unchanged, no requeue is requested and the
Status Reporter is not called; CompletionTime is the instant of the condition's last
change. -/
theorem unexpected_parameter_fails (c : Reconciler) (rep : StatusReporter) (r : CustomRun)
    (hrel : Relevant r) (hn : RefNameEmpty r) (x : String) (hx : x ∉ requiredNames)
    (hperm : (r.Spec.Params.map (fun p => p.Name)).Perm (x :: requiredNames))
    (hne : ∀ p ∈ r.Spec.Params, p.Name ∈ requiredNames → p.Value.StringVal ≠ "") :
    unexpectedNames r.Spec.Params = [x] ∧
    unexpectedNames r.Spec.Params =
      (r.Spec.Params.map (fun p => p.Name)).filter (fun n => decide (n ∉ requiredNames)) ∧
    ReconcileKind c rep r = some ⟨.mk (some ⟨.ConditionFalse, "UnexpectedParams",
        "Found unexpected params: [" ++ x ++ "]",
        transitionTime r.Status.Condition .ConditionFalse "UnexpectedParams"
          ("Found unexpected params: [" ++ x ++ "]") c.WallNow⟩)
      r.Status.StartTime
      (some (transitionTime r.Status.Condition .ConditionFalse "UnexpectedParams"
        ("Found unexpected params: [" ++ x ++ "]") c.WallNow))
      r.Status.RetriesStatus, .nil, []⟩ := by
  have hnd : (r.Spec.Params.map (fun p => p.Name)).Nodup :=
    hperm.symm.nodup_iff.mp (List.nodup_cons.mpr ⟨hx, requiredNames_nodup⟩)
  have hv : Validate r = none := by
    rw [Validate_eq_none_iff]
    intro n hreq
    rw [paramMissing_eq_false_iff]
    have hmem : n ∈ r.Spec.Params.map (fun p => p.Name) :=
      hperm.symm.subset (List.mem_cons_of_mem _ hreq)
    obtain ⟨p, hp, hname⟩ := List.mem_map.mp hmem
    refine ⟨p, ?_, hne p hp (by simpa [hname] using hreq)⟩
    have := find_name_of_nodup r.Spec.Params p hp hnd
    unfold CustomRunSpec.GetParam
    rw [← hname]; exact this
  have hlen : r.Spec.Params.length ≠ 9 := by
    have := hperm.length_eq
    simp [requiredNames] at this
    omega
  have hfound : unexpectedNames r.Spec.Params = [x] := by
    rw [unexpectedNames_eq_filter]
    have hp := hperm.filter (fun n => decide (n ∉ requiredNames))
    have hf : (x :: requiredNames).filter (fun n => decide (n ∉ requiredNames)) = [x] := by
      rw [List.filter_cons_of_pos (by simpa using hx)]
      rw [List.filter_eq_nil_iff.mpr]
      intro a ha
      simpa using ha
    rw [hf] at hp
    exact List.perm_singleton.mp hp
  refine ⟨hfound, unexpectedNames_eq_filter _, ?_⟩
  rw [reconcile_count c rep r hrel hn hv hlen, markFailed_eq, hfound, sprintf_unexpected]

/-- C7 at the sample task with the extra parameter "extra". -/
theorem unexpected_parameter_fails_witness :
    unexpectedNames extraParamRun.Spec.Params = ["extra"] ∧
    ReconcileKind (wallClock 5) okReporter extraParamRun =
      some ⟨.mk (some ⟨.ConditionFalse, "UnexpectedParams",
          "Found unexpected params: [" ++ "extra" ++ "]",
          transitionTime extraParamRun.Status.Condition .ConditionFalse "UnexpectedParams"
            ("Found unexpected params: [" ++ "extra" ++ "]") (wallClock 5).WallNow⟩)
        extraParamRun.Status.StartTime
        (some (transitionTime extraParamRun.Status.Condition .ConditionFalse
          "UnexpectedParams" ("Found unexpected params: [" ++ "extra" ++ "]")
          (wallClock 5).WallNow))
        extraParamRun.Status.RetriesStatus, .nil, []⟩ :=
  have h := unexpected_parameter_fails (wallClock 5) okReporter extraParamRun ⟨rfl, rfl⟩ rfl
    "extra" (by decide) (by decide) (by decide)
  ⟨h.1, h.2.2⟩

/-- C8: `Validate` returns no error exactly when each of the nine required names is
present with a non-empty value; an error names the first required name, in the fixed
order, that is missing or empty, with the message "The <name> param was not passed"; and
the result depends on the parameters only (`Validate` returns nothing but the error, the
task is not an output of it). -/
theorem validate_first_missing (r : CustomRun) :
    (Validate r = none ↔ ∀ n ∈ requiredNames, ParamPresent r n) ∧
    (∀ e, Validate r = some e → ∃ before n after,
      requiredNames = before ++ n :: after ∧ (∀ m ∈ before, ParamPresent r m) ∧
      ¬ ParamPresent r n ∧ e = "The " ++ n ++ " param was not passed") ∧
    (∀ r2 : CustomRun, r2.Spec.Params = r.Spec.Params → Validate r2 = Validate r) := by
  refine ⟨?_, ?_, ?_⟩
  · rw [Validate_eq_none_iff]
    constructor
    · intro h n hn
      exact (paramMissing_eq_false_iff r n).mp (h n hn)
    · intro h n hn
      exact (paramMissing_eq_false_iff r n).mpr (h n hn)
  · intro e he
    rw [Validate_eq_find] at he
    cases hf : requiredNames.find? (fun n => paramMissing r n) with
    | none => rw [hf] at he; cases he
    | some n =>
      rw [hf] at he
      obtain ⟨hmiss, before, after, hsplit, hbefore⟩ := List.find?_eq_some.mp hf
      refine ⟨before, n, after, hsplit, ?_, ?_, ?_⟩
      · intro m hm
        have := hbefore m hm
        apply (paramMissing_eq_false_iff r m).mp
        simpa using this
      · exact (paramMissing_iff_not_present r n).mp hmiss
      · simpa using he.symm
  · intro r2 h2
    have hp : ∀ n, paramMissing r2 n = paramMissing r n := by
      intro n
      simp [paramMissing, CustomRunSpec.GetParam, h2]
    simp only [Validate, hp]

/-- C9: when the task passes `Validate` and has nine parameters, which is the case
whenever `ReconcileKind` calls the Status Reporter, every required name occurs exactly once
among the parameter names, no other name occurs, and every value is non-empty. -/
theorem exact_parameters_before_report (c : Reconciler) (rep : StatusReporter)
    (r : CustomRun)
    (h : (Validate r = none ∧ r.Spec.Params.length = 9) ∨
      ∃ o, ReconcileKind c rep r = some o ∧ o.Calls ≠ []) :
    (∀ n ∈ requiredNames, (r.Spec.Params.map (fun p => p.Name)).count n = 1) ∧
    (∀ p ∈ r.Spec.Params, p.Name ∈ requiredNames ∧ p.Value.StringVal ≠ "") ∧
    (Validate r = none ∧ r.Spec.Params.length = 9) := by
  have hchecks : Validate r = none ∧ r.Spec.Params.length = 9 := by
    rcases h with h | ⟨o, ho, hcalls⟩
    · exact h
    · rcases reconcile_cases c rep r with h1 | h1 | h1
      · rw [h1.2] at ho; cases ho; exact absurd rfl hcalls
      · obtain ⟨_, _, _, _, _, _, h2⟩ := h1
        rw [h2] at ho; cases ho; exact absurd rfl hcalls
      · exact h1.2.1.2
  obtain ⟨hperm, hne⟩ := exactParams_of_checks r hchecks.1 hchecks.2
  refine ⟨?_, ?_, hchecks⟩
  · intro n hn
    rw [hperm.count_eq]
    exact List.count_eq_one_of_mem requiredNames_nodup hn
  · intro p hp
    exact ⟨hperm.subset (List.mem_map_of_mem _ hp), hne p hp⟩

/-- C9 at the fresh sample task, for which the Status Reporter is called. -/
theorem exact_parameters_before_report_witness :
    (∃ o, ReconcileKind (wallClock 5) okReporter freshRun = some o ∧ o.Calls ≠ []) ∧
    (∀ n ∈ requiredNames, (freshRun.Spec.Params.map (fun p => p.Name)).count n = 1) ∧
    (∀ p ∈ freshRun.Spec.Params, p.Name ∈ requiredNames ∧ p.Value.StringVal ≠ "") :=
  have hcall : ∃ o, ReconcileKind (wallClock 5) okReporter freshRun = some o ∧ o.Calls ≠ [] :=
    ⟨_, rfl, by decide⟩
  have h := exact_parameters_before_report (wallClock 5) okReporter freshRun (Or.inr hcall)
  ⟨hcall, h.1, h.2.1⟩

/-! ## The retry bound (C10) -/

/-- One reconciliation either takes a retry, which needs a retry left and makes the
history one entry longer, or returns no requeue and leaves the history as it was. -/
theorem step_history (c : Reconciler) (rep : StatusReporter) (r : CustomRun) :
    ∃ o, ReconcileKind c rep r = some o ∧
      ((o.Event = .requeueImmediately ∧
          o.Status.RetriesStatus.length = r.Status.RetriesStatus.length + 1 ∧
          (r.Status.RetriesStatus.length : Int) < r.Spec.Retries) ∨
       (o.Event = .nil ∧ o.Status.RetriesStatus = r.Status.RetriesStatus)) := by
  rcases reconcile_cases c rep r with h | h | h
  · exact ⟨_, h.2, Or.inr ⟨rfl, rfl⟩⟩
  · obtain ⟨_, _, _, _, _, _, h⟩ := h
    exact ⟨_, h, Or.inr ⟨rfl, rfl⟩⟩
  · rw [h.2.2]
    rcases checked_cases c rep r with h1 | h1 | h1 | h1 | h1 | h1
    · exact ⟨_, h1.2.2, Or.inr ⟨rfl, rfl⟩⟩
    · exact ⟨_, h1.2.2, Or.inr ⟨rfl, by simp [markFailed_eq]⟩⟩
    · refine ⟨_, h1.2.2.2.2, Or.inl ⟨rfl, ?_, h1.2.2.2.1⟩⟩
      rw [retry_status_eq]
      simp
    · exact ⟨_, h1.2.2.2.2, Or.inr ⟨rfl, by simp [markFailed_eq]⟩⟩
    · obtain ⟨_, _, _, e, _, h2⟩ := h1
      exact ⟨_, h2, Or.inr ⟨rfl, by simp [markFailed_eq]⟩⟩
    · exact ⟨_, h1.2.2.2.2, Or.inr ⟨rfl, by simp [markSucceeded_eq]⟩⟩

theorem retry_bound_aux (n : Nat) (ds : List Delivery) :
    ∀ st : CustomRunStatus, (∀ d ∈ ds, d.Spec.Retries = (n : Int)) →
      st.RetriesStatus.length ≤ n →
      ∃ outs, reconcileAll ds st = some outs ∧ outs.length = ds.length ∧
        (∀ o ∈ outs, o.Status.RetriesStatus.length ≤ n) ∧
        st.RetriesStatus.length +
          outs.countP (fun o => decide (o.Event = Event.requeueImmediately)) ≤ n := by
  induction ds with
  | nil =>
    intro st _ hst
    exact ⟨[], rfl, rfl, by simp, by simpa using hst⟩
  | cons d ds ih =>
    intro st hlim hst
    obtain ⟨o, ho, hstep⟩ := step_history d.Reconciler d.SetStatus ⟨d.Spec, st⟩
    have hd : d.Spec.Retries = (n : Int) := hlim d (List.mem_cons_self _ _)
    have hlim1 : ∀ e ∈ ds, e.Spec.Retries = (n : Int) :=
      fun e he => hlim e (List.mem_cons_of_mem _ he)
    rcases hstep with ⟨hev, hlen, hlt⟩ | ⟨hev, hsame⟩
    · have hlt1 : st.RetriesStatus.length < n := by
        have : (st.RetriesStatus.length : Int) < (n : Int) := by rw [← hd]; exact hlt
        exact_mod_cast this
      have hlen1 : o.Status.RetriesStatus.length = st.RetriesStatus.length + 1 := hlen
      obtain ⟨outs, houts, hl, hall, hcount⟩ := ih o.Status hlim1 (by omega)
      refine ⟨o :: outs, ?_, by simp [hl], ?_, ?_⟩
      · rw [reconcileAll, ho]
        simp only [houts, Option.map_some']
      · intro o1 ho1
        rcases List.mem_cons.mp ho1 with rfl | hmem
        · omega
        · exact hall o1 hmem
      · rw [List.countP_cons_of_pos _ _ (by simpa using hev)]
        omega
    · have hsame1 : o.Status.RetriesStatus = st.RetriesStatus := hsame
      obtain ⟨outs, houts, hl, hall, hcount⟩ := ih o.Status hlim1 (by rw [hsame1]; exact hst)
      refine ⟨o :: outs, ?_, by simp [hl], ?_, ?_⟩
      · rw [reconcileAll, ho]
        simp only [houts, Option.map_some']
      · intro o1 ho1
        rcases List.mem_cons.mp ho1 with rfl | hmem
        · rw [hsame1]; exact hst
        · exact hall o1 hmem
      · rw [List.countP_cons_of_neg _ _ (by simp [hev])]
        rw [hsame1] at hcount
        exact hcount

/-- C10: in every sequence of reconciliations of a task whose retry limit is the fixed
non-negative number `n` and whose retry history is empty at the start, the history never
has more than `n` entries after a reconciliation (so neither when the final Failed with
reason TimedOut is decided), and at most `n` of the reconciliations take a retry. -/
theorem retry_bound (n : Nat) (ds : List Delivery) (st0 : CustomRunStatus)
    (hlim : ∀ d ∈ ds, d.Spec.Retries = (n : Int)) (hempty : st0.RetriesStatus = []) :
    ∃ outs, reconcileAll ds st0 = some outs ∧ outs.length = ds.length ∧
      (∀ o ∈ outs, o.Status.RetriesStatus.length ≤ n) ∧
      outs.countP (fun o => decide (o.Event = Event.requeueImmediately)) ≤ n := by
  obtain ⟨outs, h1, h2, h3, h4⟩ := retry_bound_aux n ds st0 hlim (by simp [hempty])
  exact ⟨outs, h1, h2, h3, by simpa [hempty] using h4⟩

/-- C10 at three late deliveries of the running sample task, whose retry limit is 2. -/
theorem retry_bound_witness :
    ∃ outs, reconcileAll [lateDelivery 20, lateDelivery 30, lateDelivery 40]
        runningRun.Status = some outs ∧
      outs.length = [lateDelivery 20, lateDelivery 30, lateDelivery 40].length ∧
      (∀ o ∈ outs, o.Status.RetriesStatus.length ≤ 2) ∧
      outs.countP (fun o => decide (o.Event = Event.requeueImmediately)) ≤ 2 :=
  retry_bound 2 [lateDelivery 20, lateDelivery 30, lateDelivery 40] runningRun.Status
    (by decide) rfl

/-! ## Relevance, ref name and nil dereferences (C14, C15, C18) -/

theorem sprintf_refname (x : String) :
    Sprintf "Found unexpected ref name: %s" [x] = "Found unexpected ref name: " ++ x := by
  apply String.ext
  simp [Sprintf, sprintfChars, printVerb, isFlag]

/-- C14: a task whose custom reference is absent, or whose apiVersion is not
"pipeline.jquad.rocks/v1alpha1", or whose kind is not "GithubStatus", is returned
unchanged, whatever its parameters, ref name, cancellation mark and the clock: no status
field changes, the Status Reporter is not called and no requeue is requested. -/
theorem irrelevant_task_is_noop (c : Reconciler) (rep : StatusReporter) (r : CustomRun)
    (h : r.Spec.CustomRef = none ∨ ∃ ref, r.Spec.CustomRef = some ref ∧
      (ref.APIVersion ≠ "pipeline.jquad.rocks/v1alpha1" ∨ ref.Kind ≠ "GithubStatus")) :
    ReconcileKind c rep r = some ⟨r.Status, .nil, []⟩ := by
  apply reconcile_irrelevant
  unfold Relevant
  rcases h with h | ⟨ref, href, hne⟩
  · simp [h]
  · rw [href]
    rintro ⟨h1, h2⟩
    rcases hne with hne | hne
    · exact hne h1
    · exact hne h2

/-- C14 at a running, cancelled task of another kind, under a clock that reports the
timeout exceeded and a failing reporter. -/
theorem irrelevant_task_is_noop_witness :
    ReconcileKind (fixedElapsedClock 50 100) (failingReporter "boom") foreignRun =
      some ⟨foreignRun.Status, .nil, []⟩ :=
  irrelevant_task_is_noop (fixedElapsedClock 50 100) (failingReporter "boom") foreignRun
    (Or.inr ⟨_, rfl, Or.inr (by decide)⟩)

/-- C15: a relevant task whose ref name is not empty is left Failed with reason
UnexpectedName and the message "Found unexpected ref name: <name>", whatever its
parameters: StartTime and the retry history are unchanged, the Status Reporter is not
called and no requeue is requested; CompletionTime is the instant of the condition's
last change. -/
theorem named_reference_fails (c : Reconciler) (rep : StatusReporter) (r : CustomRun)
    (ref : CustomRef) (href : r.Spec.CustomRef = some ref) (hrel : Relevant r)
    (hname : ref.Name ≠ "") :
    ReconcileKind c rep r = some ⟨.mk (some ⟨.ConditionFalse, "UnexpectedName",
        "Found unexpected ref name: " ++ ref.Name,
        transitionTime r.Status.Condition .ConditionFalse "UnexpectedName"
          ("Found unexpected ref name: " ++ ref.Name) c.WallNow⟩)
      r.Status.StartTime
      (some (transitionTime r.Status.Condition .ConditionFalse "UnexpectedName"
        ("Found unexpected ref name: " ++ ref.Name) c.WallNow))
      r.Status.RetriesStatus, .nil, []⟩ := by
  rw [reconcile_refname c rep r ref href hrel hname, markFailed_eq, sprintf_refname]

/-- C15 at the fresh task whose reference is named "my-status". -/
theorem named_reference_fails_witness :
    ReconcileKind (wallClock 5) okReporter namedRun = some ⟨.mk (some ⟨.ConditionFalse,
        "UnexpectedName", "Found unexpected ref name: " ++ "my-status",
        transitionTime namedRun.Status.Condition .ConditionFalse "UnexpectedName"
          ("Found unexpected ref name: " ++ "my-status") (wallClock 5).WallNow⟩)
      namedRun.Status.StartTime
      (some (transitionTime namedRun.Status.Condition .ConditionFalse "UnexpectedName"
        ("Found unexpected ref name: " ++ "my-status") (wallClock 5).WallNow))
      namedRun.Status.RetriesStatus, .nil, []⟩ :=
  named_reference_fails (wallClock 5) okReporter namedRun
    { sampleRef with Name := "my-status" } rfl ⟨rfl, rfl⟩ (by decide)

/-- C18: `ReconcileKind` returns for every task, so no nil dereference is reached: once
`Validate` has passed, each of the nine reads `r.Spec.GetParam(name).Value.StringVal`
finds a parameter, and after the start block StartTime is set when
`Clock.Since(r.Status.StartTime.Time)` is evaluated, so the code after the reads returns
whatever the values read. -/
theorem no_nil_dereference (c : Reconciler) (rep : StatusReporter) (r : CustomRun) :
    (∃ o, ReconcileKind c rep r = some o) ∧
    (Validate r = none → ∀ n ∈ requiredNames,
      ∃ p, r.Spec.GetParam n = some p ∧ paramString r n = some p.Value.StringVal) ∧
    (∃ t, (startIfNotStarted c r).Status.StartTime = some t) ∧
    (∀ baseUrl owner repository revision state description context targetUrl
        insecureSkipVerify,
      ∃ o, reconcileRun c rep r baseUrl owner repository revision state description context
        targetUrl insecureSkipVerify = some o) := by
  refine ⟨reconcile_total c rep r, ?_, ⟨_, start_startTime c r⟩, ?_⟩
  · intro hv n hn
    obtain ⟨p, hp, _⟩ := (paramMissing_eq_false_iff r n).mp
      ((Validate_eq_none_iff r).mp hv n hn)
    exact ⟨p, hp, by simp [paramString, hp]⟩
  · intro baseUrl owner repository revision state description context targetUrl
      insecureSkipVerify
    simp only [reconcileRun, start_startTime]
    generalize rep (NewGithubClient baseUrl owner repository revision "blabla"
      (stringToBool insecureSkipVerify)) state description context targetUrl = answer
    split_ifs
    all_goals first
      | exact ⟨_, rfl⟩
      | (cases answer <;> exact ⟨_, rfl⟩)

/-! ## Messages passed as formats -/

theorem sprintfChars_plain (cs : List Char) (args : List String) (h : '%' ∉ cs) :
    sprintfChars .text cs args = cs := by
  induction cs with
  | nil => rfl
  | cons c cs ih =>
    have hc : c ≠ '%' := fun hc => h (by simp [hc])
    have hcs : '%' ∉ cs := fun hcs => h (List.mem_cons_of_mem _ hcs)
    simp [sprintfChars, hc, ih hcs]

/-- A format without a percent sign is printed as it is. -/
theorem sprintf_plain (s : String) (h : '%' ∉ s.toList) : Sprintf s [] = s := by
  apply String.ext
  simp only [Sprintf]
  exact sprintfChars_plain s.toList [] h

/-! ## The retry history (C17) -/

/-- C17, as stated, fails: the sample task that already holds one history entry takes a
second retry and holds two entries afterwards, the old one first. -/
theorem retry_keeps_earlier_entries :
    onceRetriedRun.Status.RetriesStatus.length = 1 ∧
    (ReconcileKind (fixedElapsedClock 20 100) okReporter onceRetriedRun).map
      (fun o => (o.Event, o.Status.RetriesStatus.length,
        o.Status.RetriesStatus.map (fun s => s.StartTime))) =
      some (.requeueImmediately, 2, [some 1, some 20]) := by
  decide

/-- C17, amended: a reconciliation that takes a timeout-driven retry appends one snapshot
to the history and keeps the entries that were there, in order, so the history is one
entry longer than before; what is cleared is the history inside the snapshot, whose
condition is Failed with reason "TimedOut" (stamped with the process clock) and whose
timestamps are those of the status after the start block. -/
theorem retry_appends_snapshot (c : Reconciler) (rep : StatusReporter) (r : CustomRun)
    (o : Reconciled) (h : ReconcileKind c rep r = some o)
    (hev : o.Event = .requeueImmediately) :
    o.Status.RetriesStatus = r.Status.RetriesStatus ++ [retrySnapshot c r] ∧
    o.Status.RetriesStatus.length = r.Status.RetriesStatus.length + 1 ∧
    (retrySnapshot c r).RetriesStatus = [] := by
  have key : o.Status.RetriesStatus = r.Status.RetriesStatus ++ [retrySnapshot c r] := by
    rcases reconcile_cases c rep r with h1 | h1 | h1
    · rw [h1.2] at h; cases h; cases hev
    · obtain ⟨_, _, _, _, _, _, h2⟩ := h1
      rw [h2] at h; cases h; cases hev
    · rw [h1.2.2] at h
      rcases checked_cases c rep r with h2 | h2 | h2 | h2 | h2 | h2
      · rw [h2.2.2] at h; cases h; cases hev
      · rw [h2.2.2] at h; cases h; cases hev
      · rw [h2.2.2.2.2] at h
        cases h
        have ht := transitionTime_of_not_done (startIfNotStarted c r).Status .ConditionFalse
          "TimedOut" "" c.WallNow h2.1 (by decide)
        rw [retry_status_eq]
        simp [retrySnapshot, start_startTime, ht]
      · rw [h2.2.2.2.2] at h; cases h; cases hev
      · obtain ⟨_, _, _, e, _, h3⟩ := h2
        rw [h3] at h; cases h; cases hev
      · rw [h2.2.2.2.2] at h; cases h; cases hev
  exact ⟨key, by simp [key], rfl⟩

/-- The amended C17 at the second retry of the sample task. -/
theorem retry_appends_snapshot_witness :
    ∃ o, ReconcileKind (fixedElapsedClock 20 100) okReporter onceRetriedRun = some o ∧
      o.Status.RetriesStatus = onceRetriedRun.Status.RetriesStatus ++
        [retrySnapshot (fixedElapsedClock 20 100) onceRetriedRun] ∧
      o.Status.RetriesStatus.length = onceRetriedRun.Status.RetriesStatus.length + 1 :=
  have h : ReconcileKind (fixedElapsedClock 20 100) okReporter onceRetriedRun =
      some ⟨(retryCustomRun (fixedElapsedClock 20 100).WallNow
        (startIfNotStarted (fixedElapsedClock 20 100) onceRetriedRun)
        ⟨.ConditionFalse, "TimedOut", "", 0⟩).Status, .requeueImmediately, []⟩ := by
    rfl
  have w := retry_appends_snapshot (fixedElapsedClock 20 100) okReporter onceRetriedRun _ h rfl
  ⟨_, h, w.1, w.2.1⟩

/-! ## The outcome of the Status Reporter call and of a cancellation (C11, C12, C13) -/

/-- The effect of a reporter error `e` on a relevant, well-formed, non-terminal,
non-cancelled task that is not timed out: the phase is Failed with reason "Failed", the
message is `e` printed as a format, equal to `e` when `e` holds no percent sign;
CompletionTime is the instant of the move, read from the process clock (the assignment
of the injected clock's instant before the call is overwritten); one reporter call, no
requeue, history unchanged. -/
theorem reporter_error_outcome (c : Reconciler) (rep : StatusReporter) (r : CustomRun)
    (hrel : Relevant r) (hw : WellFormed r) (hnd : r.IsDone = false)
    (hc : r.IsCancelled = false)
    (ht : ¬ r.GetTimeout < c.Clock.Since (r.Status.StartTime.getD c.Clock.Now))
    (e : String) (he : rep.answer (reporterCall r) = some e) :
    ReconcileKind c rep r = some ⟨.mk (some ⟨.ConditionFalse, "Failed", Sprintf e [],
        c.WallNow⟩)
      (some (r.Status.StartTime.getD c.Clock.Now)) (some c.WallNow)
      r.Status.RetriesStatus, .nil, [reporterCall r]⟩ ∧
    ('%' ∉ e.toList → Sprintf e [] = e) := by
  refine ⟨?_, sprintf_plain e⟩
  rw [reconcile_wellformed c rep r hrel hw,
    checked_reporter_error c rep r (start_not_done c r (Or.inr hnd)) hc ht e he,
    markFailed_of_not_done _ _ _ _ _ _ (start_not_done c r (Or.inr hnd))]
  simp [start_startTime]

/-- C11 at a failing input: the running sample task, not cancelled and not timed out,
whose reporter fails with the error "invalid URL escape %zz". The reason, the single call
and the absence of a requeue are as claimed, but the stored message is
"invalid URL escape %!z(MISSING)z", not the error's message; and under a test clock that
reads 50 in a process whose clock reads 1050, CompletionTime is 1050, not the instant of
the injected clock. -/
theorem reporter_error_message_mangled :
    runningRun.IsDone = false ∧ runningRun.IsCancelled = false ∧
    ¬ runningRun.GetTimeout < (wallClock 5).Clock.Since
      (runningRun.Status.StartTime.getD (wallClock 5).Clock.Now) ∧
    (failingReporter "invalid URL escape %zz").answer (reporterCall runningRun) =
      some "invalid URL escape %zz" ∧
    (ReconcileKind (wallClock 5) (failingReporter "invalid URL escape %zz") runningRun).map
      (fun o => (o.Status.Condition, o.Status.CompletionTime, o.Event, o.Calls.length,
        o.Status.RetriesStatus.length)) =
      some (some ⟨.ConditionFalse, "Failed", "invalid URL escape %!z(MISSING)z", 5⟩, some 5,
        .nil, 1, 0) ∧
    "invalid URL escape %!z(MISSING)z" ≠ "invalid URL escape %zz" ∧
    (fixedElapsedClock 50 0).Clock.Now = 50 ∧
    (ReconcileKind (fixedElapsedClock 50 0) (failingReporter "invalid URL escape %zz")
      runningRun).map (fun o => o.Status.CompletionTime) = some (some 1050) := by
  decide

/-- C12, as stated, fails: the fresh sample task is non-terminal, not cancelled and not
timed out and its reporter call succeeds, yet its StartTime changes, from unset to the
clock's instant, and its CompletionTime changes, from unset to the instant of the move;
the CompletionTime of the running sample task is set in the same way. -/
theorem success_sets_startTime_of_fresh_task :
    freshRun.IsDone = false ∧ freshRun.IsCancelled = false ∧
    ¬ freshRun.GetTimeout < (wallClock 5).Clock.Since
      (freshRun.Status.StartTime.getD (wallClock 5).Clock.Now) ∧
    okReporter.answer (reporterCall freshRun) = none ∧
    freshRun.Status.StartTime = none ∧ freshRun.Status.CompletionTime = none ∧
    (ReconcileKind (wallClock 5) okReporter freshRun).map
      (fun o => (o.Status.Condition.map (fun k => k.Reason), o.Status.StartTime,
        o.Status.CompletionTime)) =
      some (some "GithubStatusSet", some 5, some 5) ∧
    runningRun.IsDone = false ∧ runningRun.IsCancelled = false ∧
    ¬ runningRun.GetTimeout < (wallClock 5).Clock.Since
      (runningRun.Status.StartTime.getD (wallClock 5).Clock.Now) ∧
    runningRun.Status.CompletionTime = none ∧
    (ReconcileKind (wallClock 5) okReporter runningRun).map
      (fun o => (o.Status.Condition.map (fun k => k.Reason), o.Status.StartTime,
        o.Status.CompletionTime)) =
      some (some "GithubStatusSet", some 1, some 5) := by
  decide

/-- C12, amended: for every relevant, well-formed, non-terminal, non-cancelled task that
is not timed out and whose Status Reporter call succeeds, `ReconcileKind` moves the task
to Succeeded with reason GithubStatusSet, sets CompletionTime to the instant of the move
read from the process clock, leaves the retry history as it was, leaves StartTime as it
was when the task had started and sets it to the clock's instant when it had not, and
requests no requeue; the reporter is called once, with the values of state, description,
context and targetUrl, on the client built from baseUrl, owner, repository, revision and
`stringToBool(insecureSkipVerify)`. -/
theorem reporter_success_outcome (c : Reconciler) (rep : StatusReporter) (r : CustomRun)
    (hrel : Relevant r) (hw : WellFormed r) (hnd : r.IsDone = false)
    (hc : r.IsCancelled = false)
    (ht : ¬ r.GetTimeout < c.Clock.Since (r.Status.StartTime.getD c.Clock.Now))
    (hok : rep.answer (reporterCall r) = none) :
    ReconcileKind c rep r = some ⟨.mk (some ⟨.ConditionTrue, "GithubStatusSet",
      "The github status was set", c.WallNow⟩)
      (some (r.Status.StartTime.getD c.Clock.Now)) (some c.WallNow)
      r.Status.RetriesStatus, .nil, [reporterCall r]⟩ ∧
    (r.HasStarted = true → some (r.Status.StartTime.getD c.Clock.Now) = r.Status.StartTime) ∧
    (∀ n ∈ requiredNames, ∃ p ∈ r.Spec.Params, p.Name = n ∧
      r.Spec.GetParam n = some p ∧ paramValue r n = p.Value.StringVal) ∧
    reporterCall r = ⟨NewGithubClient (paramValue r "baseUrl") (paramValue r "owner")
      (paramValue r "repository") (paramValue r "revision") "blabla"
      (stringToBool (paramValue r "insecureSkipVerify")), paramValue r "state",
      paramValue r "description", paramValue r "context", paramValue r "targetUrl"⟩ := by
  refine ⟨?_, ?_, ?_, rfl⟩
  · have hmsg : Sprintf "The github status was set" [] = "The github status was set" := by
      decide
    rw [reconcile_wellformed c rep r hrel hw,
      checked_reporter_ok c rep r (start_not_done c r (Or.inr hnd)) hc ht hok,
      markSucceeded_of_not_done _ _ _ _ _ (start_not_done c r (Or.inr hnd)), hmsg]
    simp [start_startTime]
  · intro hs
    cases hst : r.Status.StartTime with
    | none => simp [CustomRun.HasStarted, hst] at hs
    | some t => rfl
  · intro n hn
    have hv := (checks_of_exactParams r hw.2).1
    obtain ⟨p, hp, _⟩ := (paramMissing_eq_false_iff r n).mp
      ((Validate_eq_none_iff r).mp hv n hn)
    refine ⟨p, List.mem_of_find?_eq_some hp, ?_, hp, ?_⟩
    · simpa using List.find?_some hp
    · simp [paramValue, paramString, hp]

/-- The amended C12 at the running sample task. -/
theorem reporter_success_outcome_witness :
    ReconcileKind (wallClock 5) okReporter runningRun = some ⟨.mk (some ⟨.ConditionTrue,
      "GithubStatusSet", "The github status was set", (wallClock 5).WallNow⟩)
      (some (runningRun.Status.StartTime.getD (wallClock 5).Clock.Now))
      (some (wallClock 5).WallNow) runningRun.Status.RetriesStatus, .nil,
      [reporterCall runningRun]⟩ ∧
    some (runningRun.Status.StartTime.getD (wallClock 5).Clock.Now) =
      runningRun.Status.StartTime :=
  have h := reporter_success_outcome (wallClock 5) okReporter runningRun ⟨rfl, rfl⟩
    ⟨rfl, List.Perm.refl _, by show ∀ p ∈ sampleParams, p.Value.StringVal ≠ ""; decide⟩
    rfl rfl (by decide) rfl
  ⟨h.1, h.2.1 rfl⟩

/-- The effect of a cancellation on a relevant, well-formed, non-terminal task: the phase
is Failed with reason "Cancelled", and the message is the default when the supplied
message is empty, and the supplied message printed as a format otherwise, equal to it
when it holds no percent sign; CompletionTime is the instant of the move, read from the
process clock. -/
theorem cancelled_outcome (c : Reconciler) (rep : StatusReporter) (r : CustomRun)
    (hrel : Relevant r) (hw : WellFormed r) (hnd : r.IsDone = false)
    (hc : r.IsCancelled = true) :
    ∃ m, ReconcileKind c rep r = some ⟨.mk (some ⟨.ConditionFalse, "Cancelled", m,
          c.WallNow⟩)
        (some (r.Status.StartTime.getD c.Clock.Now)) (some c.WallNow)
        r.Status.RetriesStatus, .nil, []⟩ ∧
      (r.Spec.StatusMessage = "" → m = WaitTaskCancelledMsg) ∧
      (r.Spec.StatusMessage ≠ "" → m = Sprintf r.Spec.StatusMessage []) ∧
      (r.Spec.StatusMessage ≠ "" → '%' ∉ r.Spec.StatusMessage.toList →
        m = r.Spec.StatusMessage) := by
  refine ⟨Sprintf (if r.Spec.StatusMessage = "" then WaitTaskCancelledMsg
    else r.Spec.StatusMessage) [], ?_, ?_, ?_, ?_⟩
  · rw [reconcile_wellformed c rep r hrel hw,
      checked_cancelled c rep r (start_not_done c r (Or.inr hnd)) hc,
      markFailed_of_not_done _ _ _ _ _ _ (start_not_done c r (Or.inr hnd))]
    simp [start_startTime]
  · intro h
    rw [if_pos h]
    decide
  · intro h
    rw [if_neg h]
  · intro h hp
    rw [if_neg h]
    exact sprintf_plain _ hp

/-- C13 at a failing input: the running sample task, cancelled with the message
"cancelled at 100%". The reason is as claimed, but the stored message is
"cancelled at 100%!(NOVERB)", not the supplied message; and under a test clock that reads
50 in a process whose clock reads 1050, CompletionTime is 1050, not the instant of the
injected clock. -/
theorem cancellation_message_mangled :
    percentCancelledRun.IsDone = false ∧ percentCancelledRun.IsCancelled = true ∧
    percentCancelledRun.Spec.StatusMessage = "cancelled at 100%" ∧
    (ReconcileKind (wallClock 5) okReporter percentCancelledRun).map
      (fun o => (o.Status.Condition, o.Status.CompletionTime, o.Event, o.Calls.length)) =
      some (some ⟨.ConditionFalse, "Cancelled", "cancelled at 100%!(NOVERB)", 5⟩, some 5,
        .nil, 0) ∧
    "cancelled at 100%!(NOVERB)" ≠ "cancelled at 100%" ∧
    (fixedElapsedClock 50 0).Clock.Now = 50 ∧
    (ReconcileKind (fixedElapsedClock 50 0) okReporter percentCancelledRun).map
      (fun o => o.Status.CompletionTime) = some (some 1050) := by
  decide

/-! ## The switch on insecureSkipVerify (C16) -/

theorem toLower_eq_t (c : Char) : c.toLower = 't' ↔ c = 't' ∨ c = 'T' := by
  constructor
  · intro h
    unfold Char.toLower at h
    simp only at h
    split_ifs at h with hr
    · right
      obtain ⟨h1, h2⟩ := hr
      have hc := Char.ofNat_toNat c
      generalize c.toNat = n at *
      interval_cases n <;> first | exact absurd h (by decide) | rw [← hc]
    · left; exact h
  · rintro (rfl | rfl) <;> decide

theorem toLower_eq_r (c : Char) : c.toLower = 'r' ↔ c = 'r' ∨ c = 'R' := by
  constructor
  · intro h
    unfold Char.toLower at h
    simp only at h
    split_ifs at h with hr
    · right
      obtain ⟨h1, h2⟩ := hr
      have hc := Char.ofNat_toNat c
      generalize c.toNat = n at *
      interval_cases n <;> first | exact absurd h (by decide) | rw [← hc]
    · left; exact h
  · rintro (rfl | rfl) <;> decide

theorem toLower_eq_u (c : Char) : c.toLower = 'u' ↔ c = 'u' ∨ c = 'U' := by
  constructor
  · intro h
    unfold Char.toLower at h
    simp only at h
    split_ifs at h with hr
    · right
      obtain ⟨h1, h2⟩ := hr
      have hc := Char.ofNat_toNat c
      generalize c.toNat = n at *
      interval_cases n <;> first | exact absurd h (by decide) | rw [← hc]
    · left; exact h
  · rintro (rfl | rfl) <;> decide

theorem toLower_eq_e (c : Char) : c.toLower = 'e' ↔ c = 'e' ∨ c = 'E' := by
  constructor
  · intro h
    unfold Char.toLower at h
    simp only at h
    split_ifs at h with hr
    · right
      obtain ⟨h1, h2⟩ := hr
      have hc := Char.ofNat_toNat c
      generalize c.toNat = n at *
      interval_cases n <;> first | exact absurd h (by decide) | rw [← hc]
    · left; exact h
  · rintro (rfl | rfl) <;> decide

theorem stringToBool_eq_true_iff (s : String) :
    stringToBool s = true ↔ ToLower s = "true" := by
  unfold stringToBool
  split_ifs <;> simp_all

theorem toLower_eq_true_iff (s : String) : ToLower s = "true" ↔ IsTrueIgnoringCase s := by
  unfold ToLower IsTrueIgnoringCase
  constructor
  · intro h
    have hd : s.toList.map Char.toLower = ['t', 'r', 'u', 'e'] := congrArg String.data h
    obtain ⟨l⟩ := s
    rcases l with _ | ⟨c1, _ | ⟨c2, _ | ⟨c3, _ | ⟨c4, _ | ⟨c5, l⟩⟩⟩⟩⟩
    · simp [String.toList] at hd
    · simp [String.toList] at hd
    · simp [String.toList] at hd
    · simp [String.toList] at hd
    · simp only [String.toList, List.map_cons, List.map_nil, List.cons.injEq, and_true] at hd
      exact ⟨c1, c2, c3, c4, rfl, (toLower_eq_t c1).mp hd.1, (toLower_eq_r c2).mp hd.2.1,
        (toLower_eq_u c3).mp hd.2.2.1, (toLower_eq_e c4).mp hd.2.2.2⟩
    · simp [String.toList] at hd
  · rintro ⟨c1, c2, c3, c4, rfl, h1, h2, h3, h4⟩
    apply String.ext
    simp [(toLower_eq_t c1).mpr h1, (toLower_eq_r c2).mpr h2, (toLower_eq_u c3).mpr h3,
      (toLower_eq_e c4).mpr h4]

/-- C16: `stringToBool(s)` is true exactly when `s` equals "true" with letter case
ignored, and false for every other string, among them "false" in any case, the empty
string, "1", "yes" and " true"; the client built by `ReconcileKind` skips the
verification of certificates exactly for such a value of insecureSkipVerify. -/
theorem stringToBool_true_iff (s : String) :
    (stringToBool s = true ↔ IsTrueIgnoringCase s) ∧
    (stringToBool s = false ↔ ¬ IsTrueIgnoringCase s) ∧
    (∀ baseUrl owner repository revision token,
      (NewGithubClient baseUrl owner repository revision token
        (stringToBool s)).InsecureSkipVerify = true ↔ IsTrueIgnoringCase s) ∧
    stringToBool "true" = true ∧ stringToBool "TRUE" = true ∧ stringToBool "True" = true ∧
    stringToBool "tRuE" = true ∧
    stringToBool "false" = false ∧ stringToBool "FALSE" = false ∧
    stringToBool "False" = false ∧ stringToBool "" = false ∧ stringToBool "1" = false ∧
    stringToBool "yes" = false ∧ stringToBool " true" = false := by
  have h : stringToBool s = true ↔ IsTrueIgnoringCase s :=
    (stringToBool_eq_true_iff s).trans (toLower_eq_true_iff s)
  refine ⟨h, ?_, ?_, by decide, by decide, by decide, by decide, by decide, by decide,
    by decide, by decide, by decide, by decide, by decide⟩
  · rw [← h]
    simp
  · intro baseUrl owner repository revision token
    exact h

/-! ## The list of unexpected names (C19) -/

/-- C19, as stated, fails: the sample parameters with `owner` given twice pass `Validate`
and are ten, yet no name lies outside the nine required names; the task is failed with
reason UnexpectedParams and an empty list of names. -/
theorem unexpected_names_can_be_empty :
    Validate duplicateParamRun = none ∧ duplicateParamRun.Spec.Params.length = 10 ∧
    unexpectedNames duplicateParamRun.Spec.Params = [] ∧
    (∀ p ∈ duplicateParamRun.Spec.Params, p.Name ∈ requiredNames) ∧
    (ReconcileKind (wallClock 5) okReporter duplicateParamRun).map
      (fun o => o.Status.Condition) =
      some (some ⟨.ConditionFalse, "UnexpectedParams", "Found unexpected params: []", 5⟩) := by
  decide

/-- C19, amended: for every parameter list with pairwise distinct names that passes
`Validate` and whose length is not 9, the list is longer than 9, at least one parameter
has a name outside the nine required names, and that name is in the list reported with
the reason UnexpectedParams. -/
theorem unexpected_names_nonempty (r : CustomRun) (hv : Validate r = none)
    (hlen : r.Spec.Params.length ≠ 9)
    (hnd : (r.Spec.Params.map (fun p => p.Name)).Nodup) :
    9 < r.Spec.Params.length ∧
    (∃ p ∈ r.Spec.Params, p.Name ∉ requiredNames ∧ p.Name ∈ unexpectedNames r.Spec.Params) ∧
    unexpectedNames r.Spec.Params ≠ [] ∧
    ∀ (c : Reconciler) (rep : StatusReporter), Relevant r → RefNameEmpty r →
      ReconcileKind c rep r = some ⟨.mk (some ⟨.ConditionFalse, "UnexpectedParams",
        Sprintf "Found unexpected params: %v" [formatStrings (unexpectedNames r.Spec.Params)],
        transitionTime r.Status.Condition .ConditionFalse "UnexpectedParams"
          (Sprintf "Found unexpected params: %v"
            [formatStrings (unexpectedNames r.Spec.Params)]) c.WallNow⟩)
        r.Status.StartTime
        (some (transitionTime r.Status.Condition .ConditionFalse "UnexpectedParams"
          (Sprintf "Found unexpected params: %v"
            [formatStrings (unexpectedNames r.Spec.Params)]) c.WallNow))
        r.Status.RetriesStatus, .nil, []⟩ := by
  have hall := (Validate_eq_none_iff r).mp hv
  have hsub : requiredNames ⊆ r.Spec.Params.map (fun p => p.Name) := by
    intro n hn
    obtain ⟨p, hp, _⟩ := (paramMissing_eq_false_iff r n).mp (hall n hn)
    have hmem := List.mem_of_find?_eq_some hp
    have hname : p.Name = n := by simpa using List.find?_some hp
    exact hname ▸ List.mem_map_of_mem _ hmem
  have hge : 9 ≤ r.Spec.Params.length := by
    have := (List.subperm_of_subset requiredNames_nodup hsub).length_le
    simpa [requiredNames] using this
  have hex : ∃ p ∈ r.Spec.Params, p.Name ∉ requiredNames := by
    by_contra hno
    push_neg at hno
    have hsub2 : r.Spec.Params.map (fun p => p.Name) ⊆ requiredNames := by
      intro n hn
      obtain ⟨p, hp, rfl⟩ := List.mem_map.mp hn
      exact hno p hp
    have := (List.subperm_of_subset hnd hsub2).length_le
    simp [requiredNames] at this
    omega
  obtain ⟨p, hp, hout⟩ := hex
  have hin : p.Name ∈ unexpectedNames r.Spec.Params := by
    rw [unexpectedNames_eq_filter, List.mem_filter]
    exact ⟨List.mem_map_of_mem _ hp, by simpa using hout⟩
  have hne : unexpectedNames r.Spec.Params ≠ [] := by
    intro h
    rw [h] at hin
    cases hin
  refine ⟨by omega, ⟨p, hp, hout, hin⟩, hne, ?_⟩
  intro c rep hrel hn
  rw [reconcile_count c rep r hrel hn hv hlen, markFailed_eq]

/-- The amended C19 at the sample task with the extra parameter "extra". -/
theorem unexpected_names_nonempty_witness :
    9 < extraParamRun.Spec.Params.length ∧
    (∃ p ∈ extraParamRun.Spec.Params, p.Name ∉ requiredNames ∧
      p.Name ∈ unexpectedNames extraParamRun.Spec.Params) ∧
    unexpectedNames extraParamRun.Spec.Params ≠ [] :=
  have h := unexpected_names_nonempty extraParamRun (by decide) (by decide) (by decide)
  ⟨h.1, h.2.1, h.2.2.1⟩

end GithubStatus
